import Mathlib

/-!
Verification of the multiview 3D stereo reconstruction system.

The repository's own sources contain only the browser frontend (upload form,
HTTP client, Three.js point-cloud view).  The reconstruction pipeline itself
(CalibrationResolver, FeatureExtractor, CorrespondenceMatcher,
RobustFundamentalEstimator, PoseRecoverer, Triangulator, MetricsComputer,
ReconstructionOrchestrator) is absent from the given sources and is modelled
here from its documented contract.  Numeric values are embedded as exact
rationals; square roots are taken with an executable rational square-root
approximation that is exact on perfect squares, standing in for the pipeline's
floating-point square root.
-/

/-- 3-vector of exact rationals, used for image points (homogeneous),
3D points, translations and RGB colour samples. -/
structure Vec3 where
  x : ℚ
  y : ℚ
  z : ℚ
  deriving DecidableEq, Repr

/-- Componentwise addition. -/
def Vec3.add (a b : Vec3) : Vec3 := ⟨a.x + b.x, a.y + b.y, a.z + b.z⟩

/-- Componentwise subtraction. -/
def Vec3.sub (a b : Vec3) : Vec3 := ⟨a.x - b.x, a.y - b.y, a.z - b.z⟩

/-- Scalar multiple. -/
def Vec3.smul (q : ℚ) (a : Vec3) : Vec3 := ⟨q * a.x, q * a.y, q * a.z⟩

/-- Dot product. -/
def Vec3.dot (a b : Vec3) : ℚ := a.x * b.x + a.y * b.y + a.z * b.z

/-- Cross product. -/
def Vec3.cross (a b : Vec3) : Vec3 :=
  ⟨a.y * b.z - a.z * b.y, a.z * b.x - a.x * b.z, a.x * b.y - a.y * b.x⟩

/-- Squared Euclidean norm. -/
def Vec3.normSq (a : Vec3) : ℚ := a.x * a.x + a.y * a.y + a.z * a.z

/-- 3×3 rational matrix, stored as three row vectors. -/
structure Mat3 where
  r1 : Vec3
  r2 : Vec3
  r3 : Vec3
  deriving DecidableEq, Repr

/-- Matrix–vector product. -/
def Mat3.mulVec (m : Mat3) (v : Vec3) : Vec3 :=
  ⟨m.r1.dot v, m.r2.dot v, m.r3.dot v⟩

/-- Transpose. -/
def Mat3.transpose (m : Mat3) : Mat3 :=
  ⟨⟨m.r1.x, m.r2.x, m.r3.x⟩, ⟨m.r1.y, m.r2.y, m.r3.y⟩, ⟨m.r1.z, m.r2.z, m.r3.z⟩⟩

/-- Matrix product. -/
def Mat3.mul (m n : Mat3) : Mat3 :=
  let nt := n.transpose
  ⟨⟨m.r1.dot nt.r1, m.r1.dot nt.r2, m.r1.dot nt.r3⟩,
   ⟨m.r2.dot nt.r1, m.r2.dot nt.r2, m.r2.dot nt.r3⟩,
   ⟨m.r3.dot nt.r1, m.r3.dot nt.r2, m.r3.dot nt.r3⟩⟩

/-- Determinant. -/
def Mat3.det (m : Mat3) : ℚ := m.r1.dot (m.r2.cross m.r3)

/-- Fuelled base-2 logarithm (floor).  The fuel of 400 suffices for any
input below 2^400. -/
def log2Fuel : Nat → Nat → Nat
  | 0, _ => 0
  | fuel + 1, n => if 2 ≤ n then log2Fuel fuel (n / 2) + 1 else 0

/-- Newton iteration for the integer square root with explicit fuel.  From a
starting guess within a constant factor of the root, a handful of steps
reach the floor square root (quadratic convergence). -/
def isqrtAux : Nat → Nat → Nat → Nat
  | 0, _, r => r
  | fuel + 1, n, r =>
    if (r + n / r) / 2 < r then isqrtAux fuel n ((r + n / r) / 2) else r

/-- Integer square root via Newton's method, seeded just above the root. -/
def isqrt (n : Nat) : Nat :=
  if n ≤ 1 then n else isqrtAux 20 n (2 ^ (log2Fuel 400 n / 2 + 1))

/-- Executable rational square root: exact on perfect squares of rationals
(in particular `ratSqrt 1 = 1` and `ratSqrt 0 = 0`), a floor-style
approximation elsewhere.  Stands in for the pipeline's floating-point sqrt. -/
def ratSqrt (q : ℚ) : ℚ :=
  (isqrt q.num.toNat : ℚ) / (isqrt q.den : ℚ)

/-- A decimal literal as it appears in a calibration file: a signed mantissa
together with the number of digits after the decimal point.  The denoted
value is `mant / 10 ^ frac`.  This models the floating-point literals of the
calibration grammar exactly. -/
structure DecLit where
  mant : ℤ
  frac : Nat
  deriving DecidableEq, Repr

/-- Rational value denoted by a decimal literal. -/
def DecLit.toRat (d : DecLit) : ℚ := (d.mant : ℚ) / ((10 : ℚ) ^ d.frac)

/-- The character for a decimal digit. -/
def digitChar (d : Nat) : Char := Char.ofNat (48 + d)

/-- Decode a character as a decimal digit, if it is one. -/
def charDigit (c : Char) : Option Nat :=
  if 48 ≤ c.toNat ∧ c.toNat ≤ 57 then some (c.toNat - 48) else none

/-- Value of a big-endian digit list. -/
def natOfBE (ds : List Nat) : Nat := ds.foldl (fun a d => 10 * a + d) 0

/-- Big-endian decimal digits of `n`, left-padded with zeros to at least
`minLen` digits. -/
def writeNatBE (n minLen : Nat) : List Nat :=
  let ds := (Nat.digits 10 n).reverse
  List.replicate (minLen - ds.length) 0 ++ ds

/-- Serialize a decimal literal into characters: optional minus sign, integer
digits, and — when `frac > 0` — a decimal point followed by `frac` fraction
digits. -/
def writeDecChars (d : DecLit) : List Char :=
  let ds := writeNatBE d.mant.natAbs (d.frac + 1)
  let cs :=
    if d.frac = 0 then ds.map digitChar
    else (ds.take (ds.length - d.frac)).map digitChar ++
      '.' :: (ds.drop (ds.length - d.frac)).map digitChar
  if d.mant < 0 then '-' :: cs else cs

/-- Maximal run of digit characters at the head of the input, as digit
values, together with the unconsumed remainder. -/
def takeDigits : List Char → List Nat × List Char
  | [] => ([], [])
  | c :: cs =>
    match charDigit c with
    | some d =>
      let r := takeDigits cs
      (d :: r.1, r.2)
    | none => ([], c :: cs)

/-- Parse an unsigned decimal literal: digits, optionally followed by a
decimal point and at least one further digit.  Returns the literal, the
consumed characters, and the remainder. -/
def parseUDecSpan (cs : List Char) : Option (DecLit × List Char × List Char) :=
  match takeDigits cs with
  | ([], _) => none
  | (d :: ds, rest) =>
    match rest with
    | '.' :: rest2 =>
      match takeDigits rest2 with
      | ([], _) => none
      | (f :: fs, rest3) =>
        some (⟨(natOfBE ((d :: ds) ++ (f :: fs)) : ℤ), (f :: fs).length⟩,
          (d :: ds).map digitChar ++ '.' :: (f :: fs).map digitChar, rest3)
    | _ => some (⟨(natOfBE (d :: ds) : ℤ), 0⟩, (d :: ds).map digitChar, rest)

/-- Parse a signed decimal literal (optional leading minus sign). -/
def parseSDecSpan : List Char → Option (DecLit × List Char × List Char)
  | '-' :: cs =>
    match parseUDecSpan cs with
    | some (d, span, rest) => some (⟨-d.mant, d.frac⟩, '-' :: span, rest)
    | none => none
  | cs => parseUDecSpan cs

/-- Expect a fixed character sequence at the head of the input. -/
def expectChars : List Char → List Char → Option (List Char)
  | [], cs => some cs
  | p :: ps, c :: cs => if c = p then expectChars ps cs else none
  | _ :: _, [] => none

/-- The fixed prefix `camN=[` of a calibration line. -/
def camChars (n : Char) : List Char := ['c', 'a', 'm', n, '=', '[']

/-- Modelled from the spec: the per-line parser of CalibrationResolver
(§4.1/§6), absent from the given sources.  A line must match
`camN=[f 0 cx; 0 f cy; 0 0 1]` exactly, with `f`, `cx`, `cy` decimal
literals and both occurrences of `f` written identically. -/
def parseCalibLine (n : Char) (cs : List Char) : Option (DecLit × DecLit × DecLit) := do
  let r1 ← expectChars (camChars n) cs
  let (fv, fSpan, r2) ← parseSDecSpan r1
  let r3 ← expectChars [' ', '0', ' '] r2
  let (cxv, _, r4) ← parseSDecSpan r3
  let r5 ← expectChars [';', ' ', '0', ' '] r4
  let r6 ← expectChars fSpan r5
  let r7 ← expectChars [' '] r6
  let (cyv, _, r8) ← parseSDecSpan r7
  let r9 ← expectChars [';', ' ', '0', ' ', '0', ' ', '1', ']'] r8
  if r9 = [] then some (fv, cxv, cyv) else none

/-- Split a character list at newline characters. -/
def splitNl : List Char → List (List Char)
  | [] => [[]]
  | c :: cs =>
    if c = '\n' then [] :: splitNl cs
    else
      match splitNl cs with
      | [] => [[c]]
      | l :: ls => (c :: l) :: ls

/-- Typed failures of the reconstruction pipeline (§7).  `decodeFailure` is
produced by the out-of-scope image decoding layer and never by the stages
modelled here. -/
inductive PipelineError where
  | decodeFailure
  | invalidCalibration
  | insufficientMatches
  | degenerateGeometry
  deriving DecidableEq, Repr

/-- Camera intrinsics: focal length and principal point, stored as the
decimal literals they were parsed from (or derived as). -/
structure CameraIntrinsics where
  f : DecLit
  cx : DecLit
  cy : DecLit
  deriving DecidableEq, Repr

/-- Modelled from the spec: the calibration-file parser of
CalibrationResolver (§4.1/§6), absent from the given sources.  The text must
consist of exactly two lines, one matching the `cam0` grammar and one the
`cam1` grammar, in either order; anything else fails with
`InvalidCalibration`. -/
def parseCalibration (cs : List Char) :
    Except PipelineError (CameraIntrinsics × CameraIntrinsics) :=
  match splitNl cs with
  | [l0, l1] =>
    match parseCalibLine '0' l0, parseCalibLine '1' l1 with
    | some (f0, cx0, cy0), some (f1, cx1, cy1) =>
      .ok (⟨f0, cx0, cy0⟩, ⟨f1, cx1, cy1⟩)
    | _, _ =>
      match parseCalibLine '1' l0, parseCalibLine '0' l1 with
      | some (f1, cx1, cy1), some (f0, cx0, cy0) =>
        .ok (⟨f0, cx0, cy0⟩, ⟨f1, cx1, cy1⟩)
      | _, _ => .error .invalidCalibration
  | _ => .error .invalidCalibration

/-- Serialize one camera's intrinsics into the calibration line grammar. -/
def writeCalibLine (n : Char) (i : CameraIntrinsics) : List Char :=
  camChars n ++ writeDecChars i.f ++ [' ', '0', ' '] ++ writeDecChars i.cx ++
    [';', ' ', '0', ' '] ++ writeDecChars i.f ++ [' '] ++ writeDecChars i.cy ++
    [';', ' ', '0', ' ', '0', ' ', '1', ']']

/-- Serialize a pair of camera intrinsics into the calibration grammar of §6
(cam0 line, newline, cam1 line). -/
def writeCalibration (i0 i1 : CameraIntrinsics) : List Char :=
  writeCalibLine '0' i0 ++ '\n' :: writeCalibLine '1' i1

/-- A floating-point literal of the calibration grammar, stated following the
spec's words: an optional minus sign, a non-empty run of digits, and
optionally a decimal point followed by a non-empty run of digits. -/
def IsFloatLit (cs : List Char) : Prop :=
  ∃ (neg : Bool) (ip fp : List Nat),
    ip ≠ [] ∧ (∀ d ∈ ip, d < 10) ∧ (∀ d ∈ fp, d < 10) ∧
    cs = (if neg then ['-'] else []) ++ ip.map digitChar ++
      (if fp = [] then [] else '.' :: fp.map digitChar)

/-- The calibration line grammar `camN=[f 0 cx; 0 f cy; 0 0 1]` of §6,
stated following the spec's words: three floating-point literals in the fixed
bracket/matrix layout, with the same `f` literal in both positions. -/
def CalibLineGrammar (n : Char) (cs : List Char) : Prop :=
  ∃ fL cxL cyL, IsFloatLit fL ∧ IsFloatLit cxL ∧ IsFloatLit cyL ∧
    cs = camChars n ++ fL ++ [' ', '0', ' '] ++ cxL ++ [';', ' ', '0', ' '] ++
      fL ++ [' '] ++ cyL ++ [';', ' ', '0', ' ', '0', ' ', '1', ']']

/-- The whole-file calibration grammar of §6, stated following the spec's
words: one line per camera, order-insensitive by camera index. -/
def CalibGrammar (cs : List Char) : Prop :=
  ∃ l0 l1, CalibLineGrammar '0' l0 ∧ CalibLineGrammar '1' l1 ∧
    (cs = l0 ++ '\n' :: l1 ∨ cs = l1 ++ '\n' :: l0)

/-- A decoded input image: dimensions and a per-pixel intensity grid.
Decoding itself belongs to the out-of-scope HTTP layer. -/
structure Image where
  width : Nat
  height : Nat
  pix : Nat → Nat → ℚ

/-- Modelled from the spec: the default-intrinsics rule of
CalibrationResolver (§4.1), absent from the given sources:
`f = max(width, height)`, `cx = width / 2`, `cy = height / 2`. -/
def defaultIntrinsics (w h : Nat) : CameraIntrinsics :=
  ⟨⟨(max w h : ℤ), 0⟩, ⟨(5 * w : ℤ), 1⟩, ⟨(5 * h : ℤ), 1⟩⟩

/-- Modelled from the spec: CalibrationResolver (§4.1), absent from the given
sources.  With a calibration file present the file is parsed; with no file
the intrinsics are derived independently per image from its own dimensions
(a deliberate fallback, not an error). -/
def resolveCalibration (calib : Option (List Char)) (im0 im1 : Image) :
    Except PipelineError (CameraIntrinsics × CameraIntrinsics) :=
  match calib with
  | none =>
    .ok (defaultIntrinsics im0.width im0.height,
      defaultIntrinsics im1.width im1.height)
  | some cs => parseCalibration cs

/-- Keypoint: a 2D pixel location.  The single-scale surrogate detector below
fixes scale and orientation, so only the location is carried. -/
structure Keypoint where
  x : Nat
  y : Nat
  deriving DecidableEq, Repr

/-- Strict local maximum of intensity over the 8-neighborhood. -/
def isLocalMax (im : Image) (x y : Nat) : Prop :=
  im.pix (x - 1) (y - 1) < im.pix x y ∧ im.pix x (y - 1) < im.pix x y ∧
  im.pix (x + 1) (y - 1) < im.pix x y ∧ im.pix (x - 1) y < im.pix x y ∧
  im.pix (x + 1) y < im.pix x y ∧ im.pix (x - 1) (y + 1) < im.pix x y ∧
  im.pix x (y + 1) < im.pix x y ∧ im.pix (x + 1) (y + 1) < im.pix x y

instance (im : Image) (x y : Nat) : Decidable (isLocalMax im x y) := by
  unfold isLocalMax; infer_instance

/-- The 3×3 intensity neighborhood of a pixel, row-major. -/
def neighborhood (im : Image) (x y : Nat) : List ℚ :=
  [im.pix (x - 1) (y - 1), im.pix x (y - 1), im.pix (x + 1) (y - 1),
   im.pix (x - 1) y, im.pix x y, im.pix (x + 1) y,
   im.pix (x - 1) (y + 1), im.pix x (y + 1), im.pix (x + 1) (y + 1)]

/-- L1-normalize a descriptor vector (illumination invariance); the all-zero
vector is left unchanged (guarded division). -/
def normalizeDesc (v : List ℚ) : List ℚ :=
  let s := (v.map (fun q => |q|)).sum
  if s = 0 then v else v.map (fun q => q / s)

/-- Descriptor at a pixel: the L1-normalized 3×3 neighborhood. -/
def descriptorAt (im : Image) (x y : Nat) : List ℚ :=
  normalizeDesc (neighborhood im x y)

/-- Modelled from the spec: FeatureExtractor (§4.2), absent from the given
sources.  The documented multi-scale extremum detector with
gradient-histogram descriptors is replaced by an exact single-scale
surrogate: interior pixels that are strict local intensity maxima, described
by their L1-normalized 3×3 neighborhood.  A uniform image yields zero
keypoints (not an error). -/
def extractFeatures (im : Image) : List (Keypoint × List ℚ) :=
  (List.range im.height).flatMap fun y =>
    (List.range im.width).filterMap fun x =>
      if 1 ≤ x ∧ x + 1 < im.width ∧ 1 ≤ y ∧ y + 1 < im.height ∧ isLocalMax im x y
      then some (⟨x, y⟩, descriptorAt im x y)
      else none

/-- Squared L2 distance between two descriptors. -/
def descDistSq (a b : List ℚ) : ℚ :=
  ((a.zip b).map (fun p => (p.1 - p.2) ^ 2)).sum

/-- A correspondence: matched left/right keypoints with the squared
descriptor distance of the accepted match as score. -/
structure Correspondence where
  left : Keypoint
  right : Keypoint
  score : ℚ
  deriving DecidableEq, Repr

/-- Fold maintaining the best (keypoint, squared distance) and the
second-best squared distance; ties keep the earlier candidate. -/
def bestTwoAux : List (Keypoint × ℚ) → (Keypoint × ℚ) × ℚ → (Keypoint × ℚ) × ℚ
  | [], acc => acc
  | kd :: rest, acc =>
    if kd.2 < acc.1.2 then bestTwoAux rest ((kd.1, kd.2), acc.1.2)
    else if kd.2 < acc.2 then bestTwoAux rest (acc.1, kd.2)
    else bestTwoAux rest acc

/-- Match one left descriptor against all right keypoints: two nearest
neighbors, accepted only under Lowe's ratio test
(nearest / second-nearest < 0.7, compared on squared distances). -/
def matchOne (d : List ℚ) (rights : List (Keypoint × List ℚ)) :
    Option (Keypoint × ℚ) :=
  match rights.map (fun r => (r.1, descDistSq d r.2)) with
  | c1 :: c2 :: rest =>
    let init := if c2.2 < c1.2 then ((c2.1, c2.2), c1.2) else ((c1.1, c1.2), c2.2)
    let br := bestTwoAux rest init
    if br.1.2 * 100 < 49 * br.2 then some br.1 else none
  | _ => none

/-- Modelled from the spec: CorrespondenceMatcher (§4.3), absent from the
given sources.  For each left keypoint the two nearest right descriptors are
found and the match kept only under Lowe's ratio test, so each left keypoint
contributes at most one correspondence. -/
def matchDescriptors (ls rs : List (Keypoint × List ℚ)) : List Correspondence :=
  ls.filterMap fun l => (matchOne l.2 rs).map fun br => ⟨l.1, br.1, br.2⟩

/-- Deterministic 64-bit linear congruential step for the injectable RANSAC
seed. -/
def lcgNext (s : Nat) : Nat :=
  (6364136223846793005 * s + 1442695040888963407) % 2 ^ 64

/-- Bounded output of an LCG state. -/
def lcgOut (s n : Nat) : Nat := (s / 2 ^ 33) % n

/-- Draw `fuel` elements without replacement from the pool, threading the
LCG state (Fisher–Yates style). -/
def drawSample : Nat → Nat → List Nat → List Nat × Nat
  | 0, s, _ => ([], s)
  | k + 1, s, pool =>
    if pool.isEmpty then ([], s)
    else
      let s' := lcgNext s
      let i := lcgOut s' pool.length
      let v := pool.getD i 0
      let r := drawSample k s' (pool.eraseIdx i)
      (v :: r.1, r.2)

/-- Centroid of a list of 2D points. -/
def centroid2 (ps : List (ℚ × ℚ)) : ℚ × ℚ :=
  ((ps.map Prod.fst).sum / ps.length, (ps.map Prod.snd).sum / ps.length)

/-- Conditioning transform of the normalized 8-point solve: translate the
centroid to the origin and scale by the inverse mean L1 distance (an exact
surrogate for the usual RMS-√2 scaling).  Uniform point sets keep scale 1. -/
def normT (ps : List (ℚ × ℚ)) : Mat3 :=
  let c := centroid2 ps
  let d := (ps.map (fun p => |p.1 - c.1| + |p.2 - c.2|)).sum
  let s := if d = 0 then 1 else (ps.length : ℚ) / d
  ⟨⟨s, 0, -s * c.1⟩, ⟨0, s, -s * c.2⟩, ⟨0, 0, 1⟩⟩

/-- Epipolar constraint row for one (normalized) correspondence, in the
unknowns f11..f33. -/
def constraintRow (xl xr : Vec3) : List ℚ :=
  [xr.x * xl.x, xr.x * xl.y, xr.x * xl.z,
   xr.y * xl.x, xr.y * xl.y, xr.y * xl.z,
   xr.z * xl.x, xr.z * xl.y, xr.z * xl.z]

/-- Find the first row with a nonzero entry in column `j`, returning it and
the remaining rows. -/
def pivotRow (j : Nat) : List (List ℚ) → Option (List ℚ × List (List ℚ))
  | [] => none
  | r :: rs =>
    if r.getD j 0 ≠ 0 then some (r, rs)
    else
      match pivotRow j rs with
      | some (p, rest) => some (p, r :: rest)
      | none => none

/-- Scale a row by a rational. -/
def scaleRow (q : ℚ) (r : List ℚ) : List ℚ := r.map (fun a => q * a)

/-- Subtract rows componentwise. -/
def rowSub (r s : List ℚ) : List ℚ := (r.zip s).map fun p => p.1 - p.2

/-- Forward Gaussian elimination over the given columns, returning the pivot
column together with its normalized pivot row, in elimination order. -/
def gaussCols : List Nat → List (List ℚ) → List (Nat × List ℚ)
  | [], _ => []
  | j :: js, rows =>
    match pivotRow j rows with
    | none => gaussCols js rows
    | some (p, rest) =>
      let pn := scaleRow (1 / p.getD j 0) p
      let rest2 := rest.map (fun r => rowSub r (scaleRow (r.getD j 0) pn))
      (j, pn) :: gaussCols js rest2

/-- Back substitution for a null vector given echelon pivot rows and an
assignment of the free variables. -/
def backSub (pivots : List (Nat × List ℚ)) (x : List ℚ) : List ℚ :=
  pivots.foldr
    (fun jp xv =>
      let s := ((jp.2.zip xv).map fun p => p.1 * p.2).sum -
        jp.2.getD jp.1 0 * xv.getD jp.1 0
      xv.set jp.1 (-s))
    x

/-- A null vector of an m×9 rational system: eliminate, set the last free
variable to 1, back-substitute.  Returns none when the system has full
column rank. -/
def nullVec9 (rows : List (List ℚ)) : Option (List ℚ) :=
  let pivots := gaussCols (List.range 9) rows
  let pcols := pivots.map Prod.fst
  match ((List.range 9).filter (fun j => ¬ j ∈ pcols)).getLast? with
  | none => none
  | some jf =>
    some (backSub pivots ((List.range 9).map fun j => if j = jf then (1 : ℚ) else 0))

/-- Build a 3×3 matrix from a 9-entry row-major list. -/
def matOf9 (v : List ℚ) : Mat3 :=
  ⟨⟨v.getD 0 0, v.getD 1 0, v.getD 2 0⟩,
   ⟨v.getD 3 0, v.getD 4 0, v.getD 5 0⟩,
   ⟨v.getD 6 0, v.getD 7 0, v.getD 8 0⟩⟩

/-- Exact rank-2 enforcement surrogate: if the fitted matrix is nonsingular,
replace its third row by its orthogonal projection onto the span of the
first two (the exact-rational stand-in for zeroing the smallest singular
value). -/
def rank2Enforce (F : Mat3) : Mat3 :=
  if F.det = 0 then F
  else
    let g11 := F.r1.dot F.r1
    let g12 := F.r1.dot F.r2
    let g22 := F.r2.dot F.r2
    let b1 := F.r3.dot F.r1
    let b2 := F.r3.dot F.r2
    let dG := g11 * g22 - g12 * g12
    if dG = 0 then ⟨F.r1, F.r2, ⟨0, 0, 0⟩⟩
    else
      let al := (b1 * g22 - b2 * g12) / dG
      let be := (g11 * b2 - g12 * b1) / dG
      ⟨F.r1, F.r2, (F.r1.smul al).add (F.r2.smul be)⟩

/-- Homogeneous pixel coordinates of a keypoint. -/
def homog (k : Keypoint) : Vec3 := ⟨(k.x : ℚ), (k.y : ℚ), 1⟩

/-- Fixed squared pixel threshold of the RANSAC consensus test. -/
def ransacThrSq : ℚ := 4

/-- Symmetric epipolar consensus test: both epipolar line normal vectors are
nonzero (guarding the divisions) and the symmetric squared epipolar distance
is below the fixed threshold. -/
def epiInlier (F : Mat3) (c : Correspondence) : Prop :=
  let xl := homog c.left
  let xr := homog c.right
  let l2 := F.mulVec xl
  let l1 := F.transpose.mulVec xr
  let nmr := xr.dot (F.mulVec xl)
  (l1.x ^ 2 + l1.y ^ 2 ≠ 0) ∧ (l2.x ^ 2 + l2.y ^ 2 ≠ 0) ∧
    nmr ^ 2 / (l2.x ^ 2 + l2.y ^ 2) + nmr ^ 2 / (l1.x ^ 2 + l1.y ^ 2) ≤ ransacThrSq

instance (F : Mat3) (c : Correspondence) : Decidable (epiInlier F c) := by
  unfold epiInlier; infer_instance

/-- Fit a fundamental matrix to the given correspondences by the normalized
linear solve with rank-2 enforcement (§4.4 step 2). -/
def fitFundamental (sample : List Correspondence) : Option Mat3 :=
  let lps := sample.map (fun c => ((c.left.x : ℚ), (c.left.y : ℚ)))
  let rps := sample.map (fun c => ((c.right.x : ℚ), (c.right.y : ℚ)))
  let T1 := normT lps
  let T2 := normT rps
  let rows := sample.map fun c =>
    constraintRow (T1.mulVec (homog c.left)) (T2.mulVec (homog c.right))
  match nullVec9 rows with
  | none => none
  | some v => some (rank2Enforce (T2.transpose.mul ((matOf9 v).mul T1)))

/-- Best RANSAC candidate so far: fitted matrix and its consensus set. -/
structure RansacBest where
  F : Mat3
  inliers : List Correspondence
  deriving Repr

/-- Modelled from the spec: one iteration step of the RANSAC loop of
RobustFundamentalEstimator (§4.4), absent from the given sources: fit a
candidate to the drawn sample, score it by consensus over all
correspondences, and keep the better of it and the best so far. -/
def ransacUpdate (cs sample : List Correspondence) (best : Option RansacBest) :
    Option RansacBest :=
  match fitFundamental sample with
  | none => best
  | some F =>
    match best with
    | none => some ⟨F, cs.filter (fun c => decide (epiInlier F c))⟩
    | some b =>
      if b.inliers.length < (cs.filter (fun c => decide (epiInlier F c))).length
      then some ⟨F, cs.filter (fun c => decide (epiInlier F c))⟩ else best

/-- Early-termination test of the consensus loop: for the achieved inlier
ratio `w` after `k` iterations, stop once `(1 - w^8)^k ≤ 1 - 0.99` (the
99%-confidence rule, checked with exact rational powers). -/
def ransacDone (cs : List Correspondence) (b : RansacBest) (k : Nat) : Prop :=
  (1 - ((b.inliers.length : ℚ) / (cs.length : ℚ)) ^ 8) ^ k ≤ 1 / 100

instance (cs : List Correspondence) (b : RansacBest) (k : Nat) :
    Decidable (ransacDone cs b k) :=
  inferInstanceAs (Decidable (_ ≤ _))

def ransacIter (cs : List Correspondence) :
    Nat → Nat → Nat → Option RansacBest → Option RansacBest
  | 0, _, _, best => best
  | fuel + 1, iters, s, best =>
    let best2 := ransacUpdate cs
      ((drawSample 8 s (List.range cs.length)).1.filterMap (fun i => cs.get? i))
      best
    match best2 with
    | some b =>
      if ransacDone cs b (iters + 1) then best2
      else ransacIter cs fuel (iters + 1) (lcgNext s) best2
    | none => ransacIter cs fuel (iters + 1) (lcgNext s) best2

/-- Fixed iteration budget of the RANSAC search. -/
def ransacBudget : Nat := 50

/-- Modelled from the spec: RobustFundamentalEstimator (§4.4), absent from
the given sources.  Runs the consensus search, fails with
`DegenerateGeometry` unless the best candidate has at least 8 inliers, and
refits the final matrix on the full inlier set (falling back to the
candidate matrix if the refit system degenerates). -/
def estimateFundamental (seed : Nat) (cs : List Correspondence) :
    Except PipelineError (Mat3 × List Correspondence) :=
  match ransacIter cs ransacBudget 0 seed none with
  | none => .error .degenerateGeometry
  | some b =>
    if 8 ≤ b.inliers.length then
      match fitFundamental b.inliers with
      | some Ff => .ok (Ff, b.inliers)
      | none => .ok (b.F, b.inliers)
    else .error .degenerateGeometry

/-- Negation of a vector. -/
def Vec3.neg (a : Vec3) : Vec3 := ⟨-a.x, -a.y, -a.z⟩

/-- The identity 3×3 matrix. -/
def idMat3 : Mat3 := ⟨⟨1, 0, 0⟩, ⟨0, 1, 0⟩, ⟨0, 0, 1⟩⟩

/-- Calibration matrix of a camera. -/
def kMat (i : CameraIntrinsics) : Mat3 :=
  ⟨⟨i.f.toRat, 0, i.cx.toRat⟩, ⟨0, i.f.toRat, i.cy.toRat⟩, ⟨0, 0, 1⟩⟩

/-- Relative pose: rotation and translation taking left-camera coordinates
to right-camera coordinates (`X2 = R X1 + t`). -/
structure RelativePose where
  R : Mat3
  t : Vec3
  deriving DecidableEq, Repr

/-- A left null direction of a singular 3×3 matrix: the cross product of two
independent columns.  Returns none when the matrix has rank at most 1. -/
def leftNullVec (m : Mat3) : Option Vec3 :=
  let mt := m.transpose
  let v1 := mt.r1.cross mt.r2
  if v1 ≠ (⟨0, 0, 0⟩ : Vec3) then some v1
  else
    let v2 := mt.r1.cross mt.r3
    if v2 ≠ (⟨0, 0, 0⟩ : Vec3) then some v2
    else
      let v3 := mt.r2.cross mt.r3
      if v3 ≠ (⟨0, 0, 0⟩ : Vec3) then some v3 else none

/-- Exact unit normalization: succeeds when the squared norm is a perfect
square of a rational (as for the axis-aligned translation directions of the
surrogate decomposition), returning the unit-normalized vector `v / ‖v‖`. -/
def unitize (v : Vec3) : Option Vec3 :=
  match isqrt v.normSq.num.toNat * isqrt v.normSq.num.toNat == v.normSq.num.toNat &&
      (isqrt v.normSq.den * isqrt v.normSq.den == v.normSq.den) &&
      (v.normSq.num.toNat != 0) with
  | true =>
    some (v.smul ((isqrt v.normSq.den : ℚ) / (isqrt v.normSq.num.toNat : ℚ)))
  | false => none

/-- Rotation by π about a unit axis: `2 u uᵀ − I`. -/
def rot180 (u : Vec3) : Mat3 :=
  ⟨⟨2 * u.x * u.x - 1, 2 * u.x * u.y, 2 * u.x * u.z⟩,
   ⟨2 * u.y * u.x, 2 * u.y * u.y - 1, 2 * u.y * u.z⟩,
   ⟨2 * u.z * u.x, 2 * u.z * u.y, 2 * u.z * u.z - 1⟩⟩

/-- The four (R, t) candidates of essential-matrix decomposition: two
rotations (identity-sheet and its twisted pair about the translation axis)
times two translation signs. -/
def poseCandidates (t : Vec3) : List RelativePose :=
  [⟨idMat3, t⟩, ⟨idMat3, t.neg⟩, ⟨rot180 t, t⟩, ⟨rot180 t, t.neg⟩]

/-- Backprojected viewing ray direction of a pixel under given intrinsics. -/
def rayDir (i : CameraIntrinsics) (k : Keypoint) : Vec3 :=
  ⟨((k.x : ℚ) - i.cx.toRat) / i.f.toRat, ((k.y : ℚ) - i.cy.toRat) / i.f.toRat, 1⟩

/-- Modelled from the spec: per-correspondence linear triangulation (§4.6),
absent from the given sources.  The homogeneous DLT/SVD solve is replaced by
the exact midpoint of the two backprojected rays (the closest-point solve of
the two viewing lines, an exact-rational stand-in); parallel-ray systems
yield none (the correspondence is discarded, not an error). -/
def triangulateCorr (p : RelativePose) (i0 i1 : CameraIntrinsics)
    (c : Correspondence) : Option Vec3 :=
  let d1 := rayDir i0 c.left
  let d2 := p.R.transpose.mulVec (rayDir i1 c.right)
  let c2 := (p.R.transpose.mulVec p.t).neg
  let a := d1.dot d1
  let b := d1.dot d2
  let cc := d2.dot d2
  let e1 := c2.dot d1
  let e2 := c2.dot d2
  let den := b * b - a * cc
  if den = 0 then none
  else
    let s := (e2 * b - e1 * cc) / den
    let u := (a * e2 - b * e1) / den
    some (((d1.smul s).add (c2.add (d2.smul u))).smul (1 / 2))

/-- Coordinates of a 3D point in the right camera frame. -/
def inCam2 (p : RelativePose) (P : Vec3) : Vec3 := (p.R.mulVec P).add p.t

/-- Squared reprojection error of a camera-frame point against an observed
keypoint (guarded: a point at zero depth reprojects with error 0 here, but
such points are always discarded by the positive-depth test first). -/
def reprojErrSq (i : CameraIntrinsics) (X : Vec3) (k : Keypoint) : ℚ :=
  if X.z = 0 then 0
  else
    (i.f.toRat * X.x / X.z + i.cx.toRat - (k.x : ℚ)) ^ 2 +
      (i.f.toRat * X.y / X.z + i.cy.toRat - (k.y : ℚ)) ^ 2

/-- Positive-depth (cheirality) test of one correspondence under a candidate
pose: the triangulated point exists and lies in front of both cameras. -/
def posDepth (p : RelativePose) (i0 i1 : CameraIntrinsics)
    (c : Correspondence) : Prop :=
  ∃ P, triangulateCorr p i0 i1 c = some P ∧ 0 < P.z ∧ 0 < (inCam2 p P).z

instance (p : RelativePose) (i0 i1 : CameraIntrinsics) (c : Correspondence) :
    Decidable (posDepth p i0 i1 c) := by
  unfold posDepth
  match h : triangulateCorr p i0 i1 c with
  | none => exact .isFalse (by simp [h])
  | some P =>
    exact decidable_of_iff (0 < P.z ∧ 0 < (inCam2 p P).z) (by simp [h])

/-- Number of probe correspondences with positive depth in both frames. -/
def posDepthCount (p : RelativePose) (i0 i1 : CameraIntrinsics)
    (probe : List Correspondence) : Nat :=
  (probe.filter (fun c => decide (posDepth p i0 i1 c))).length

/-- First-maximum selection over scored pose candidates. -/
def argmaxPose : List (RelativePose × Nat) → Option (RelativePose × Nat)
  | [] => none
  | p :: ps => some (ps.foldl (fun acc q => if acc.2 < q.2 then q else acc) p)

/-- Modelled from the spec: PoseRecoverer (§4.5), absent from the given
sources.  Computes the essential matrix `E = K2ᵀ F K1`, extracts the
translation axis as an exactly unit-normalized left null direction of `E`
(the exact-rational stand-in for the SVD decomposition; irrational-norm
directions fail as degenerate), forms the four (R, t) candidates, and keeps
the candidate maximizing positive-depth support over a probe subset of the
inliers; fails with `DegenerateGeometry` when no candidate reaches a strict
majority. -/
def recoverPose (F : Mat3) (i0 i1 : CameraIntrinsics)
    (inliers : List Correspondence) : Except PipelineError RelativePose :=
  let E := (kMat i1).transpose.mul (F.mul (kMat i0))
  match leftNullVec E with
  | none => .error .degenerateGeometry
  | some v =>
    match unitize v with
    | none => .error .degenerateGeometry
    | some t =>
      let probe := inliers.take 10
      let scored := (poseCandidates t).map fun p =>
        (p, posDepthCount p i0 i1 probe)
      match argmaxPose scored with
      | none => .error .degenerateGeometry
      | some best =>
        if probe.length < 2 * best.2 then .ok best.1
        else .error .degenerateGeometry

/-- A triangulated point with its colour sample and provenance link back to
the source correspondence. -/
structure TriangulatedPoint where
  p3d : Vec3
  colr : Vec3
  src : Correspondence
  deriving DecidableEq, Repr

/-- Colour sample at a keypoint location (grayscale pixel model: equal RGB
channels). -/
def sampleColor (im : Image) (k : Keypoint) : Vec3 :=
  ⟨im.pix k.x k.y, im.pix k.x k.y, im.pix k.x k.y⟩

/-- Fixed squared-pixel sanity bound on reprojection error of kept points. -/
def reprojBoundSq : ℚ := 4

/-- Survival test of one inlier correspondence in the Triangulator: the rays
triangulate, the point has positive depth in both cameras, and the
reprojection error is within the sanity bound. -/
def survivesTriangulation (p : RelativePose) (i0 i1 : CameraIntrinsics)
    (c : Correspondence) : Prop :=
  ∃ P, triangulateCorr p i0 i1 c = some P ∧ 0 < P.z ∧ 0 < (inCam2 p P).z ∧
    reprojErrSq i1 (inCam2 p P) c.right ≤ reprojBoundSq

instance (p : RelativePose) (i0 i1 : CameraIntrinsics) (c : Correspondence) :
    Decidable (survivesTriangulation p i0 i1 c) := by
  unfold survivesTriangulation
  match h : triangulateCorr p i0 i1 c with
  | none => exact .isFalse (by simp [h])
  | some P =>
    exact decidable_of_iff
      (0 < P.z ∧ 0 < (inCam2 p P).z ∧
        reprojErrSq i1 (inCam2 p P) c.right ≤ reprojBoundSq)
      (by simp [h])

/-- Modelled from the spec: Triangulator (§4.6), absent from the given
sources.  Each surviving inlier correspondence yields one 3D point (midpoint
triangulation) paired with the colour sampled at its left keypoint; points
with non-positive depth or out-of-bound reprojection error are discarded,
not errors. -/
def triangulateAll (p : RelativePose) (i0 i1 : CameraIntrinsics) (im0 : Image)
    (inliers : List Correspondence) : List TriangulatedPoint :=
  (inliers.filter (fun c => decide (survivesTriangulation p i0 i1 c))).filterMap
    fun c =>
      match triangulateCorr p i0 i1 c with
      | some P => some ⟨P, sampleColor im0 c.left, c⟩
      | none => none

/-- Aggregate quality statistics of one reconstruction (§4.7/§6).  The field
`inlierFraction` embeds the metric named `inlier_ratio` in the output
contract. -/
structure ReconstructionMetrics where
  reprojection_rmse : ℚ
  num_keypoints_matched : Nat
  num_inliers : Nat
  inlierFraction : ℚ
  num_3d_points : Nat
  baseline_length : ℚ
  mean_depth : ℚ
  depth_range : ℚ
  deriving DecidableEq, Repr

/-- Modelled from the spec: MetricsComputer (§4.7), absent from the given
sources.  All divisions (inlier ratio, RMSE, mean depth) are explicitly
guarded against empty denominators. -/
def computeMetrics (numMatched numInliers : Nat) (pose : RelativePose)
    (i1 : CameraIntrinsics) (tris : List TriangulatedPoint) :
    ReconstructionMetrics :=
  let n := tris.length
  let sqErrs := tris.map fun t => reprojErrSq i1 (inCam2 pose t.p3d) t.src.right
  let zs := tris.map fun t => t.p3d.z
  { reprojection_rmse := if n = 0 then 0 else ratSqrt (sqErrs.sum / (n : ℚ))
    num_keypoints_matched := numMatched
    num_inliers := numInliers
    inlierFraction :=
      if numMatched = 0 then 0 else (numInliers : ℚ) / (numMatched : ℚ)
    num_3d_points := n
    baseline_length := ratSqrt pose.t.normSq
    mean_depth := if n = 0 then 0 else zs.sum / (n : ℚ)
    depth_range :=
      if n = 0 then 0
      else zs.foldl max (zs.headD 0) - zs.foldl min (zs.headD 0) }

/-- The structured output contract of §6: parallel point and colour
sequences plus the metrics object. -/
structure PipelineOutput where
  points : List Vec3
  colors : List Vec3
  metrics : ReconstructionMetrics
  deriving DecidableEq, Repr

instance : Inhabited PipelineOutput :=
  ⟨⟨[], [], ⟨0, 0, 0, 0, 0, 0, 0, 0⟩⟩⟩

/-- Modelled from the spec: the matching stage boundary of the orchestrator
(§4.3/§4.8), absent from the given sources: fewer than 8 surviving
correspondences fail with `InsufficientMatches`. -/
def matchStage (im0 im1 : Image) : Except PipelineError (List Correspondence) :=
  if (matchDescriptors (extractFeatures im0) (extractFeatures im1)).length < 8
  then .error .insufficientMatches
  else .ok (matchDescriptors (extractFeatures im0) (extractFeatures im1))

/-- Modelled from the spec: ReconstructionOrchestrator (§4.8), absent from
the given sources.  Sequences §4.1–§4.7 strictly in order, short-circuits to
the first stage failure, and on success assembles the point/colour sequences
and the metrics object.  The whole pipeline is a pure function of the two
images, the optional calibration text and the injected random seed. -/
def runPipeline (im0 im1 : Image) (calib : Option (List Char)) (seed : Nat) :
    Except PipelineError PipelineOutput := do
  let ks ← resolveCalibration calib im0 im1
  let cs ← matchStage im0 im1
  let fi ← estimateFundamental seed cs
  let pose ← recoverPose fi.1 ks.1 ks.2 fi.2
  .ok ⟨(triangulateAll pose ks.1 ks.2 im0 fi.2).map (fun t => t.p3d),
    (triangulateAll pose ks.1 ks.2 im0 fi.2).map (fun t => t.colr),
    computeMetrics cs.length fi.2.length pose ks.2
      (triangulateAll pose ks.1 ks.2 im0 fi.2)⟩

/-- Left-image feature column of the synthetic witness scene, one feature
per 3-row band. -/
def uLeft (j : Nat) : Nat := 2 + j % 3

/-- Per-feature disparity of the synthetic witness scene (distinct depths
make the 8-point system well conditioned). -/
def dsp (j : Nat) : Nat := [1, 2, 5, 1, 2, 5, 2, 1].getD j 1

/-- Right-image feature column: left column plus disparity. -/
def uRight (j : Nat) : Nat := uLeft j + dsp j

/-- Intensity stamp of feature `j`: a bright centre over a distinctive 3×3
pattern, identical in both images so descriptors match exactly. -/
def stampVal (j : Nat) (dx dy : Int) : ℚ :=
  if dx = 0 ∧ dy = 0 then 1000 + j
  else ((j + 1) * 10 + (dx + 1) + 3 * (dy + 1) : Int)

/-- Pixel grid with one stamp per 3-row band, centred at column `u j`. -/
def pixAt (u : Nat → Nat) (x y : Nat) : ℚ :=
  let j := y / 3
  if j < 8 then
    let dy : Int := (y : Int) - (3 * j + 1)
    let dx : Int := (x : Int) - (u j : Int)
    if dx.natAbs ≤ 1 ∧ dy.natAbs ≤ 1 then stampVal j dx dy else 0
  else 0

/-- Left image of the synthetic witness stereo pair (12×24). -/
def imL : Image := ⟨12, 24, pixAt uLeft⟩

/-- Right image of the synthetic witness stereo pair: the same features
shifted horizontally by their disparity (a pure-translation stereo scene). -/
def imR : Image := ⟨12, 24, pixAt uRight⟩

/-- Computed keypoints and descriptors of the left witness image. -/
def featsLLit : List (Keypoint × List ℚ) :=
  [(⟨2, 1⟩,
  [(5 : Rat)/556, (11 : Rat)/1112, (3 : Rat)/278, (13 : Rat)/1112,
   (125 : Rat)/139, (15 : Rat)/1112, (2 : Rat)/139, (17 : Rat)/1112,
   (9 : Rat)/556]),
 (⟨3, 4⟩,
  [(20 : Rat)/1193, (21 : Rat)/1193, (22 : Rat)/1193, (23 : Rat)/1193,
   (1001 : Rat)/1193, (25 : Rat)/1193, (26 : Rat)/1193, (27 : Rat)/1193,
   (28 : Rat)/1193]),
 (⟨4, 7⟩,
  [(15 : Rat)/637, (31 : Rat)/1274, (16 : Rat)/637, (33 : Rat)/1274,
   (501 : Rat)/637, (5 : Rat)/182, (18 : Rat)/637, (37 : Rat)/1274,
   (19 : Rat)/637]),
 (⟨2, 10⟩,
  [(8 : Rat)/271, (41 : Rat)/1355, (42 : Rat)/1355, (43 : Rat)/1355,
   (1003 : Rat)/1355, (9 : Rat)/271, (46 : Rat)/1355, (47 : Rat)/1355,
   (48 : Rat)/1355]),
 (⟨3, 13⟩,
  [(25 : Rat)/718, (51 : Rat)/1436, (13 : Rat)/359, (53 : Rat)/1436,
   (251 : Rat)/359, (55 : Rat)/1436, (14 : Rat)/359, (57 : Rat)/1436,
   (29 : Rat)/718]),
 (⟨4, 16⟩,
  [(60 : Rat)/1517, (61 : Rat)/1517, (62 : Rat)/1517, (63 : Rat)/1517,
   (1005 : Rat)/1517, (65 : Rat)/1517, (66 : Rat)/1517, (67 : Rat)/1517,
   (68 : Rat)/1517]),
 (⟨2, 19⟩,
  [(35 : Rat)/799, (71 : Rat)/1598, (36 : Rat)/799, (73 : Rat)/1598,
   (503 : Rat)/799, (75 : Rat)/1598, (38 : Rat)/799, (77 : Rat)/1598,
   (39 : Rat)/799]),
 (⟨3, 22⟩,
  [(80 : Rat)/1679, (81 : Rat)/1679, (82 : Rat)/1679, (83 : Rat)/1679,
   (1007 : Rat)/1679, (85 : Rat)/1679, (86 : Rat)/1679, (87 : Rat)/1679,
   (88 : Rat)/1679])]

/-- Computed keypoints and descriptors of the right witness image. -/
def featsRLit : List (Keypoint × List ℚ) :=
  [(⟨3, 1⟩,
  [(5 : Rat)/556, (11 : Rat)/1112, (3 : Rat)/278, (13 : Rat)/1112,
   (125 : Rat)/139, (15 : Rat)/1112, (2 : Rat)/139, (17 : Rat)/1112,
   (9 : Rat)/556]),
 (⟨5, 4⟩,
  [(20 : Rat)/1193, (21 : Rat)/1193, (22 : Rat)/1193, (23 : Rat)/1193,
   (1001 : Rat)/1193, (25 : Rat)/1193, (26 : Rat)/1193, (27 : Rat)/1193,
   (28 : Rat)/1193]),
 (⟨9, 7⟩,
  [(15 : Rat)/637, (31 : Rat)/1274, (16 : Rat)/637, (33 : Rat)/1274,
   (501 : Rat)/637, (5 : Rat)/182, (18 : Rat)/637, (37 : Rat)/1274,
   (19 : Rat)/637]),
 (⟨3, 10⟩,
  [(8 : Rat)/271, (41 : Rat)/1355, (42 : Rat)/1355, (43 : Rat)/1355,
   (1003 : Rat)/1355, (9 : Rat)/271, (46 : Rat)/1355, (47 : Rat)/1355,
   (48 : Rat)/1355]),
 (⟨5, 13⟩,
  [(25 : Rat)/718, (51 : Rat)/1436, (13 : Rat)/359, (53 : Rat)/1436,
   (251 : Rat)/359, (55 : Rat)/1436, (14 : Rat)/359, (57 : Rat)/1436,
   (29 : Rat)/718]),
 (⟨9, 16⟩,
  [(60 : Rat)/1517, (61 : Rat)/1517, (62 : Rat)/1517, (63 : Rat)/1517,
   (1005 : Rat)/1517, (65 : Rat)/1517, (66 : Rat)/1517, (67 : Rat)/1517,
   (68 : Rat)/1517]),
 (⟨4, 19⟩,
  [(35 : Rat)/799, (71 : Rat)/1598, (36 : Rat)/799, (73 : Rat)/1598,
   (503 : Rat)/799, (75 : Rat)/1598, (38 : Rat)/799, (77 : Rat)/1598,
   (39 : Rat)/799]),
 (⟨4, 22⟩,
  [(80 : Rat)/1679, (81 : Rat)/1679, (82 : Rat)/1679, (83 : Rat)/1679,
   (1007 : Rat)/1679, (85 : Rat)/1679, (86 : Rat)/1679, (87 : Rat)/1679,
   (88 : Rat)/1679])]

/-- The 8 correspondences of the witness pair. -/
def csLit : List Correspondence :=
  [⟨⟨2, 1⟩, ⟨3, 1⟩, 0⟩,
   ⟨⟨3, 4⟩, ⟨5, 4⟩, 0⟩,
   ⟨⟨4, 7⟩, ⟨9, 7⟩, 0⟩,
   ⟨⟨2, 10⟩, ⟨3, 10⟩, 0⟩,
   ⟨⟨3, 13⟩, ⟨5, 13⟩, 0⟩,
   ⟨⟨4, 16⟩, ⟨9, 16⟩, 0⟩,
   ⟨⟨2, 19⟩, ⟨4, 19⟩, 0⟩,
   ⟨⟨3, 22⟩, ⟨4, 22⟩, 0⟩]

/-- The fundamental matrix fitted on the witness pair (proportional to the
pure-translation fundamental matrix). -/
def fundLit : Mat3 :=
  ⟨⟨0, 0, 0⟩, ⟨0, 0, (-32 : Rat)/213⟩, ⟨0, (32 : Rat)/213, 0⟩⟩

/-- The recovered pose of the witness pair: identity rotation, unit
translation along x. -/
def poseLit : RelativePose := ⟨idMat3, ⟨1, 0, 0⟩⟩

/-- The derived intrinsics of the 12×24 witness images. -/
def intrLit : CameraIntrinsics := ⟨⟨24, 0⟩, ⟨60, 1⟩, ⟨120, 1⟩⟩

/-- The triangulated points of the witness pair. -/
def trisLit : List TriangulatedPoint :=
  [⟨⟨-4, -11, 24⟩, ⟨1000, 1000, 1000⟩, ⟨⟨2, 1⟩, ⟨3, 1⟩, 0⟩⟩,
   ⟨⟨(-3 : Rat)/2, -4, 12⟩, ⟨1001, 1001, 1001⟩, ⟨⟨3, 4⟩, ⟨5, 4⟩, 0⟩⟩,
   ⟨⟨(-2 : Rat)/5, -1, (24 : Rat)/5⟩, ⟨1002, 1002, 1002⟩, ⟨⟨4, 7⟩, ⟨9, 7⟩, 0⟩⟩,
   ⟨⟨-4, -2, 24⟩, ⟨1003, 1003, 1003⟩, ⟨⟨2, 10⟩, ⟨3, 10⟩, 0⟩⟩,
   ⟨⟨(-3 : Rat)/2, (1 : Rat)/2, 12⟩, ⟨1004, 1004, 1004⟩, ⟨⟨3, 13⟩, ⟨5, 13⟩, 0⟩⟩,
   ⟨⟨(-2 : Rat)/5, (4 : Rat)/5, (24 : Rat)/5⟩, ⟨1005, 1005, 1005⟩, ⟨⟨4, 16⟩, ⟨9, 16⟩, 0⟩⟩,
   ⟨⟨-2, (7 : Rat)/2, 12⟩, ⟨1006, 1006, 1006⟩, ⟨⟨2, 19⟩, ⟨4, 19⟩, 0⟩⟩,
   ⟨⟨-3, 10, 24⟩, ⟨1007, 1007, 1007⟩, ⟨⟨3, 22⟩, ⟨4, 22⟩, 0⟩⟩]

/-- The metrics of the witness run. -/
def metricsLit : ReconstructionMetrics :=
  ⟨0, 8, 8, 1, 8, 1, (147 : Rat)/10, (96 : Rat)/5⟩

/-- The successful pipeline output on the synthetic witness pair. -/
def sampleOut : PipelineOutput :=
  ⟨trisLit.map (fun t => t.p3d), trisLit.map (fun t => t.colr), metricsLit⟩

/-- A 4×4 uniform (blank) image: zero keypoints by §4.2. -/
def blankIm : Image := ⟨4, 4, fun _ _ => 0⟩

/-- Frontend metrics record, from `src/frontend/src/types/index.ts`
(ReconstructionMetrics), JS numbers embedded as exact rationals.  The field
`inlierFraction` embeds the TS field `inlier_ratio`. -/
structure FrontendMetrics where
  reprojection_rmse : ℚ
  num_keypoints_matched : ℚ
  num_inliers : ℚ
  inlierFraction : ℚ
  num_3d_points : ℚ
  baseline_length : ℚ
  mean_depth : ℚ
  depth_range : ℚ
  deriving DecidableEq, Repr

/-- Frontend result record, from `src/frontend/src/types/index.ts`
(ReconstructionResult). -/
structure FrontendResult where
  points : List (ℚ × ℚ × ℚ)
  colors : List (ℚ × ℚ × ℚ)
  metrics : FrontendMetrics
  deriving DecidableEq, Repr

/-- Abstract HTTP response as observed by the frontend client: the numeric
status code, the body's JSON parse outcome (`none` when `response.json()`
throws, otherwise the optional `detail` string field), and the decoded
result payload used on the success path. -/
structure HttpResponse where
  status : Nat
  jsonDetail : Option (Option (List Char))
  result : FrontendResult

/-- Whether a fetch `Response.ok` is set: status in the 2xx range. -/
def respOk (r : HttpResponse) : Prop := 200 ≤ r.status ∧ r.status ≤ 299

instance (r : HttpResponse) : Decidable (respOk r) :=
  inferInstanceAs (Decidable (_ ∧ _))

/-- The fallback error message `HTTP <status>` of
`src/frontend/src/api/reconstruction.ts`. -/
def httpFallback (status : Nat) : List Char :=
  ['H', 'T', 'T', 'P', ' '] ++ (writeNatBE status 1).map digitChar

/-- Model of `runReconstruction` in `src/frontend/src/api/reconstruction.ts`
(lines 24–33): on a non-OK response the thrown message is the parsed body's
`detail` field when present, else the `HTTP <status>` fallback (JSON parse
errors ignored); on an OK response the parsed body is returned. -/
def runReconstructionA (r : HttpResponse) : Except (List Char) FrontendResult :=
  if 200 ≤ r.status ∧ r.status ≤ 299 then .ok r.result
  else
    .error
      (match r.jsonDetail with
       | some (some d) => d
       | _ => httpFallback r.status)

/-- The fallback error message of `src/unnamed/part_000`. -/
def reconFailedMsg : List Char :=
  ['R', 'e', 'c', 'o', 'n', 's', 't', 'r', 'u', 'c', 't', 'i', 'o', 'n',
   ' ', 'f', 'a', 'i', 'l', 'e', 'd']

/-- Model of `runReconstruction` in `src/unnamed/part_000` (lines 37–40),
the openapi-fetch variant: the client yields `error` exactly on non-OK
responses, and the thrown message is `error.detail ?? "Reconstruction
failed"`. -/
def runReconstructionB (r : HttpResponse) : Except (List Char) FrontendResult :=
  if 200 ≤ r.status ∧ r.status ≤ 299 then .ok r.result
  else
    .error
      (match r.jsonDetail with
       | some (some d) => d
       | _ => reconFailedMsg)

/-- Centroid of a list of 3D points (frontend auto-centering). -/
def centroid3 (ps : List Vec3) : Vec3 :=
  ⟨(ps.map Vec3.x).sum / (ps.length : ℚ),
   (ps.map Vec3.y).sum / (ps.length : ℚ),
   (ps.map Vec3.z).sum / (ps.length : ℚ)⟩

/-- Model of the positions buffer built by the `PointCloud` component in
`src/frontend/src/types/index.ts` (lines 52–83): each point translated by
the centroid of all points, flattened row-major into the Float32Array (JS
numbers embedded as exact rationals). -/
def pointCloudPositions (points : List Vec3) : List ℚ :=
  let c := centroid3 points
  points.flatMap fun p => [p.x - c.x, p.y - c.y, p.z - c.z]

/-- Model of the colour buffer built by the `PointCloud` component: the
first `points.length` colour triples copied unchanged in order.  (The
component indexes `colors[i]` for `i < points.length`.) -/
def pointCloudColors (points colors : List Vec3) : List ℚ :=
  (colors.take points.length).flatMap fun q => [q.x, q.y, q.z]

/-- The head of a character list is not a decimal digit. -/
def noDigitHead : List Char → Prop
  | [] => True
  | c :: _ => charDigit c = none

/-- The head of a character list is not a decimal point. -/
def noDotHead (cs : List Char) : Prop := ∀ cs2, cs ≠ '.' :: cs2

/-- The head of a character list is not a minus sign. -/
def noDashHead (cs : List Char) : Prop := ∀ cs2, cs ≠ '-' :: cs2

/-! Helper lemmas about the pipeline stages. -/

theorem matchStage_ok {im0 im1 : Image} {cs : List Correspondence}
    (h : matchStage im0 im1 = .ok cs) :
    cs = matchDescriptors (extractFeatures im0) (extractFeatures im1) ∧
      8 ≤ cs.length := by
  unfold matchStage at h
  split at h
  · exact absurd h (by simp)
  · cases h
    exact ⟨rfl, by omega⟩

theorem ransacUpdate_sublist (cs sample : List Correspondence)
    (best : Option RansacBest)
    (hb : ∀ b0, best = some b0 → b0.inliers.Sublist cs) :
    ∀ b, ransacUpdate cs sample best = some b → b.inliers.Sublist cs := by
  intro b h
  unfold ransacUpdate at h
  split at h
  · exact hb b h
  · split at h
    · cases h; exact List.filter_sublist cs
    · split at h
      · cases h; exact List.filter_sublist cs
      · exact hb b h

theorem ransacIter_inliers_sublist {cs : List Correspondence} :
    ∀ (fuel iters s : Nat) (best : Option RansacBest) (b : RansacBest),
      (∀ b0, best = some b0 → b0.inliers.Sublist cs) →
      ransacIter cs fuel iters s best = some b → b.inliers.Sublist cs := by
  intro fuel
  induction fuel with
  | zero => intro iters s best b hb h; exact hb b h
  | succ k ih =>
    intro iters s best b hb h
    rw [ransacIter] at h
    have hb2 := ransacUpdate_sublist cs
      ((drawSample 8 s (List.range cs.length)).1.filterMap
        (fun i => cs.get? i)) best hb
    revert h
    split
    · rename_i b1 hb1
      intro h
      split at h
      · exact hb2 b (hb1 ▸ h)
      · exact ih _ _ _ _ hb2 h
    · intro h
      exact ih _ _ _ _ hb2 h

theorem estimateFundamental_ok {seed : Nat} {cs : List Correspondence}
    {fi : Mat3 × List Correspondence}
    (h : estimateFundamental seed cs = .ok fi) :
    fi.2.Sublist cs ∧ 8 ≤ fi.2.length := by
  unfold estimateFundamental at h
  split at h
  · exact absurd h (by simp)
  · rename_i b hb
    have hsub : b.inliers.Sublist cs :=
      ransacIter_inliers_sublist _ _ _ _ _ (by intro b0 h0; cases h0) hb
    split at h
    · rename_i hlen
      split at h <;> (cases h; exact ⟨hsub, hlen⟩)
    · exact absurd h (by simp)

theorem normSq_smul (q : ℚ) (a : Vec3) :
    (Vec3.smul q a).normSq = q ^ 2 * a.normSq := by
  simp only [Vec3.smul, Vec3.normSq]
  ring

theorem unitize_normSq {v t : Vec3} (h : unitize v = some t) : t.normSq = 1 := by
  unfold unitize at h
  split at h
  · rename_i hguard
    simp only [Bool.and_eq_true, beq_iff_eq, bne_iff_ne] at hguard
    obtain ⟨⟨ha, hb⟩, hnz⟩ := hguard
    cases h
    rw [normSq_smul]
    have hq : (0 : ℚ) ≤ v.normSq := by
      simp only [Vec3.normSq]
      nlinarith [mul_self_nonneg v.x, mul_self_nonneg v.y, mul_self_nonneg v.z]
    have hnum : ((v.normSq.num.toNat : ℤ) : ℚ) = (v.normSq.num : ℚ) := by
      rw [Int.toNat_of_nonneg (Rat.num_nonneg.mpr hq)]
    have hval : v.normSq = (v.normSq.num.toNat : ℚ) / (v.normSq.den : ℚ) := by
      push_cast at hnum ⊢
      rw [hnum, Rat.num_div_den]
    generalize hA : v.normSq.num.toNat = a at *
    generalize hB : v.normSq.den = b at *
    generalize hSA : isqrt a = sa at *
    generalize hSB : isqrt b = sb at *
    have hbpos : 0 < b := by rw [← hB]; exact v.normSq.pos
    have hsa : (0 : ℚ) < (sa : ℚ) := by
      have : sa ≠ 0 := by
        intro h0
        rw [h0] at ha
        simp at ha
        exact hnz ha.symm
      exact_mod_cast Nat.pos_of_ne_zero this
    have hsb : (0 : ℚ) < (sb : ℚ) := by
      have : sb ≠ 0 := by
        intro h0
        rw [h0] at hb
        simp at hb
        omega
      exact_mod_cast Nat.pos_of_ne_zero this
    have haq : (sa : ℚ) * (sa : ℚ) = (a : ℚ) := by exact_mod_cast congrArg Nat.cast ha
    have hbq : (sb : ℚ) * (sb : ℚ) = (b : ℚ) := by exact_mod_cast congrArg Nat.cast hb
    rw [hval]
    field_simp
    nlinarith [haq, hbq]
  · exact absurd h (by simp)

theorem argmaxPose_mem {l : List (RelativePose × Nat)} {p : RelativePose × Nat}
    (h : argmaxPose l = some p) : p ∈ l := by
  match l with
  | [] => cases h
  | q :: qs =>
    unfold argmaxPose at h
    cases h
    suffices hgen : ∀ (acc : RelativePose × Nat), acc ∈ q :: qs →
        qs.foldl (fun acc r => if acc.2 < r.2 then r else acc) acc ∈ q :: qs by
      exact hgen q (by simp)
    have : ∀ (ws : List (RelativePose × Nat)) (S : List (RelativePose × Nat))
        (acc : RelativePose × Nat), acc ∈ S → (∀ w ∈ ws, w ∈ S) →
        ws.foldl (fun acc r => if acc.2 < r.2 then r else acc) acc ∈ S := by
      intro ws
      induction ws with
      | nil => intro S acc ha _; exact ha
      | cons w ws ihw =>
        intro S acc ha hw
        simp only [List.foldl_cons]
        split
        · exact ihw S w (hw w (by simp)) (fun u hu => hw u (by simp [hu]))
        · exact ihw S acc ha (fun u hu => hw u (by simp [hu]))
    intro acc hacc
    exact this qs (q :: qs) acc hacc (fun u hu => by simp [hu])

theorem poseCandidates_t_normSq {t : Vec3} (h : t.normSq = 1) :
    ∀ p ∈ poseCandidates t, p.t.normSq = 1 := by
  intro p hp
  have hneg : (Vec3.neg t).normSq = 1 := by
    simp only [Vec3.neg, Vec3.normSq] at h ⊢
    ring_nf
    ring_nf at h
    linarith
  simp only [poseCandidates, List.mem_cons, List.mem_singleton] at hp
  rcases hp with rfl | rfl | rfl | rfl | h0
  · exact h
  · exact hneg
  · exact h
  · exact hneg
  · cases h0

theorem recoverPose_ok {F : Mat3} {i0 i1 : CameraIntrinsics}
    {inl : List Correspondence} {pose : RelativePose}
    (h : recoverPose F i0 i1 inl = .ok pose) : pose.t.normSq = 1 := by
  simp only [recoverPose] at h
  split at h
  · exact absurd h (by simp)
  · rename_i v hv
    split at h
    · exact absurd h (by simp)
    · rename_i t ht
      split at h
      · exact absurd h (by simp)
      · rename_i best hbest
        split at h
        · cases h
          have hmem := argmaxPose_mem hbest
          simp only [List.mem_map] at hmem
          obtain ⟨p, hp, hpe⟩ := hmem
          have := poseCandidates_t_normSq (unitize_normSq ht) p hp
          rw [← hpe] at *
          exact this
        · exact absurd h (by simp)

theorem filterMap_eq_map_of_forall {a b : Type} {l : List a} {f : a → Option b}
    {g : a → b} (h : ∀ c ∈ l, f c = some (g c)) : l.filterMap f = l.map g := by
  induction l with
  | nil => rfl
  | cons x l ih =>
    rw [List.filterMap_cons, h x (by simp), List.map_cons,
      ih (fun c hc => h c (by simp [hc]))]

theorem triangulateAll_eq (p : RelativePose) (i0 i1 : CameraIntrinsics)
    (im0 : Image) (inl : List Correspondence) :
    triangulateAll p i0 i1 im0 inl =
      (inl.filter (fun c => decide (survivesTriangulation p i0 i1 c))).map
        (fun c => ⟨(triangulateCorr p i0 i1 c).getD ⟨0, 0, 0⟩,
          sampleColor im0 c.left, c⟩) := by
  unfold triangulateAll
  apply filterMap_eq_map_of_forall
  intro c hc
  have hs : survivesTriangulation p i0 i1 c := by
    have := (List.mem_filter.mp hc).2
    exact of_decide_eq_true this
  obtain ⟨P, hP, _⟩ := hs
  rw [hP]
  simp [hP]

theorem runPipeline_ok {im0 im1 : Image} {calib : Option (List Char)}
    {seed : Nat} {out : PipelineOutput}
    (h : runPipeline im0 im1 calib seed = .ok out) :
    ∃ ks cs fi pose,
      resolveCalibration calib im0 im1 = .ok ks ∧
      matchStage im0 im1 = .ok cs ∧
      estimateFundamental seed cs = .ok fi ∧
      recoverPose fi.1 ks.1 ks.2 fi.2 = .ok pose ∧
      out = ⟨(triangulateAll pose ks.1 ks.2 im0 fi.2).map (fun t => t.p3d),
        (triangulateAll pose ks.1 ks.2 im0 fi.2).map (fun t => t.colr),
        computeMetrics cs.length fi.2.length pose ks.2
          (triangulateAll pose ks.1 ks.2 im0 fi.2)⟩ := by
  unfold runPipeline at h
  simp only [Bind.bind] at h
  cases hks : resolveCalibration calib im0 im1 with
  | error e =>
    rw [hks] at h
    simp only [Except.bind] at h
    cases h
  | ok ks =>
  rw [hks] at h
  simp only [Except.bind] at h
  cases hcs : matchStage im0 im1 with
  | error e =>
    rw [hcs] at h
    simp only [Except.bind] at h
    cases h
  | ok cs =>
  rw [hcs] at h
  simp only [Except.bind] at h
  cases hfi : estimateFundamental seed cs with
  | error e =>
    rw [hfi] at h
    simp only [Except.bind] at h
    cases h
  | ok fi =>
  rw [hfi] at h
  simp only [Except.bind] at h
  cases hpose : recoverPose fi.1 ks.1 ks.2 fi.2 with
  | error e =>
    rw [hpose] at h
    simp only [Except.bind] at h
    cases h
  | ok pose =>
  rw [hpose] at h
  simp only [Except.bind, Except.ok.injEq] at h
  exact ⟨ks, cs, fi, pose, rfl, rfl, hfi, hpose, h.symm⟩

set_option maxRecDepth 8000 in
theorem stage_feats_left : extractFeatures imL = featsLLit := by
  with_unfolding_all rfl

set_option maxRecDepth 8000 in
theorem stage_feats_right : extractFeatures imR = featsRLit := by
  with_unfolding_all rfl

set_option maxRecDepth 8000 in
theorem stage_matches : matchDescriptors featsLLit featsRLit = csLit := by
  with_unfolding_all rfl

set_option maxRecDepth 8000 in
theorem stage_estimate : estimateFundamental 1 csLit = .ok (fundLit, csLit) := by
  with_unfolding_all rfl

set_option maxRecDepth 8000 in
theorem stage_pose : recoverPose fundLit intrLit intrLit csLit = .ok poseLit := by
  with_unfolding_all rfl

set_option maxRecDepth 8000 in
theorem stage_tris : triangulateAll poseLit intrLit intrLit imL csLit = trisLit := by
  with_unfolding_all rfl

set_option maxRecDepth 8000 in
theorem stage_metrics :
    computeMetrics csLit.length csLit.length poseLit intrLit trisLit = metricsLit := by
  with_unfolding_all rfl

theorem stage_matchStage : matchStage imL imR = .ok csLit := by
  have h1 : matchDescriptors (extractFeatures imL) (extractFeatures imR) = csLit := by
    rw [stage_feats_left, stage_feats_right, stage_matches]
  unfold matchStage
  rw [h1]
  rfl

theorem stage_calib : resolveCalibration none imL imR = .ok (intrLit, intrLit) := by
  with_unfolding_all rfl

theorem sampleRun_ok : runPipeline imL imR none 1 = Except.ok sampleOut := by
  unfold runPipeline
  simp only [Bind.bind, Except.bind, stage_calib, stage_matchStage, stage_estimate,
    stage_pose, stage_tris, stage_metrics]
  rfl

theorem ratSqrt_one : ratSqrt 1 = 1 := by
  with_unfolding_all rfl

/-- C1: for every pair of runs of the reconstruction pipeline on identical
input images, identical optional calibration file, and the same fixed random
seed, the two runs produce identical points, identical colors, and identical
metrics.  (The pipeline is a pure function of the images, the calibration
text and the injected seed; all randomness comes from the seeded LCG.) -/
theorem claim_C1_determinism (im0 im1 im0' im1' : Image)
    (calib calib' : Option (List Char)) (seed seed' : Nat)
    (h0 : im0 = im0') (h1 : im1 = im1') (hc : calib = calib')
    (hs : seed = seed') :
    runPipeline im0 im1 calib seed = runPipeline im0' im1' calib' seed' ∧
    ∀ o o', runPipeline im0 im1 calib seed = .ok o →
      runPipeline im0' im1' calib' seed' = .ok o' →
      o.points = o'.points ∧ o.colors = o'.colors ∧ o.metrics = o'.metrics := by
  subst h0; subst h1; subst hc; subst hs
  refine ⟨rfl, ?_⟩
  intro o o' ho ho'
  rw [ho] at ho'
  cases ho'
  exact ⟨rfl, rfl, rfl⟩

/-- Witness for C1 at the concrete synthetic stereo pair and seed 1. -/
theorem claim_C1_witness :
    runPipeline imL imR none 1 = runPipeline imL imR none 1 ∧
    ∀ o o', runPipeline imL imR none 1 = .ok o →
      runPipeline imL imR none 1 = .ok o' →
      o.points = o'.points ∧ o.colors = o'.colors ∧ o.metrics = o'.metrics :=
  claim_C1_determinism imL imR imL imR none none 1 1 rfl rfl rfl rfl

/-- C2: the reported inlier ratio equals num_inliers / num_keypoints_matched
with an explicit division-by-zero guard (0 when no matches), and on every
successful run it satisfies 0 ≤ ratio ≤ 1 with
num_inliers ≤ num_keypoints_matched.  (`inlierFraction` is the embedding of
the metric `inlier_ratio`.) -/
theorem claim_C2_inlier_ratio :
    (∀ (nm ni : Nat) (pose : RelativePose) (i1 : CameraIntrinsics)
        (tris : List TriangulatedPoint),
      (computeMetrics nm ni pose i1 tris).inlierFraction =
        if nm = 0 then 0 else (ni : ℚ) / (nm : ℚ)) ∧
    ∀ (im0 im1 : Image) (calib : Option (List Char)) (seed : Nat)
      (out : PipelineOutput), runPipeline im0 im1 calib seed = .ok out →
      out.metrics.num_inliers ≤ out.metrics.num_keypoints_matched ∧
      out.metrics.inlierFraction =
        (out.metrics.num_inliers : ℚ) / (out.metrics.num_keypoints_matched : ℚ) ∧
      0 ≤ out.metrics.inlierFraction ∧ out.metrics.inlierFraction ≤ 1 := by
  constructor
  · intro nm ni pose i1 tris
    simp only [computeMetrics]
  · intro im0 im1 calib seed out h
    obtain ⟨ks, cs, fi, pose, hks, hcs, hfi, hpose, rfl⟩ := runPipeline_ok h
    obtain ⟨hsub, hlen8⟩ := estimateFundamental_ok hfi
    obtain ⟨hcseq, hcs8⟩ := matchStage_ok hcs
    have hle : fi.2.length ≤ cs.length := hsub.length_le
    have hnm : cs.length ≠ 0 := by omega
    simp only [computeMetrics]
    refine ⟨hle, by rw [if_neg hnm], ?_, ?_⟩
    · rw [if_neg hnm]
      positivity
    · rw [if_neg hnm]
      rw [div_le_one (by exact_mod_cast Nat.pos_of_ne_zero hnm)]
      exact_mod_cast hle

/-- Witness for C2: the guard at zero matches, and the bounds on the
successful synthetic run. -/
theorem claim_C2_witness :
    (computeMetrics 0 0 ⟨idMat3, ⟨1, 0, 0⟩⟩ (defaultIntrinsics 12 24) []).inlierFraction =
      (if (0 : Nat) = 0 then (0 : ℚ) else 0 / 0) ∧
    (sampleOut.metrics.num_inliers ≤ sampleOut.metrics.num_keypoints_matched ∧
      sampleOut.metrics.inlierFraction =
        (sampleOut.metrics.num_inliers : ℚ) /
          (sampleOut.metrics.num_keypoints_matched : ℚ) ∧
      0 ≤ sampleOut.metrics.inlierFraction ∧
      sampleOut.metrics.inlierFraction ≤ 1) :=
  ⟨claim_C2_inlier_ratio.1 0 0 ⟨idMat3, ⟨1, 0, 0⟩⟩ (defaultIntrinsics 12 24) [],
   claim_C2_inlier_ratio.2 imL imR none 1 sampleOut sampleRun_ok⟩

/-- C3: on every successful run the counts are monotonically non-increasing
along the pipeline — num_3d_points ≤ num_inliers ≤ num_keypoints_matched —
and the inlier set is a sublist (hence subset) of the correspondence set. -/
theorem claim_C3_monotone_counts (im0 im1 : Image) (calib : Option (List Char))
    (seed : Nat) (out : PipelineOutput)
    (h : runPipeline im0 im1 calib seed = .ok out) :
    out.metrics.num_3d_points ≤ out.metrics.num_inliers ∧
    out.metrics.num_inliers ≤ out.metrics.num_keypoints_matched ∧
    ∃ cs fi, matchStage im0 im1 = .ok cs ∧
      estimateFundamental seed cs = .ok fi ∧ fi.2.Sublist cs ∧
      out.metrics.num_inliers = fi.2.length ∧
      out.metrics.num_keypoints_matched = cs.length := by
  obtain ⟨ks, cs, fi, pose, hks, hcs, hfi, hpose, rfl⟩ := runPipeline_ok h
  obtain ⟨hsub, h8⟩ := estimateFundamental_ok hfi
  simp only [computeMetrics]
  refine ⟨?_, hsub.length_le, cs, fi, hcs, hfi, hsub, rfl, rfl⟩
  rw [triangulateAll_eq, List.length_map]
  exact List.length_filter_le _ _

/-- Witness for C3 on the successful synthetic run. -/
theorem claim_C3_witness :
    sampleOut.metrics.num_3d_points ≤ sampleOut.metrics.num_inliers ∧
    sampleOut.metrics.num_inliers ≤ sampleOut.metrics.num_keypoints_matched ∧
    ∃ cs fi, matchStage imL imR = .ok cs ∧
      estimateFundamental 1 cs = .ok fi ∧ fi.2.Sublist cs ∧
      sampleOut.metrics.num_inliers = fi.2.length ∧
      sampleOut.metrics.num_keypoints_matched = cs.length :=
  claim_C3_monotone_counts imL imR none 1 sampleOut sampleRun_ok

/-- C4: on every successful run the points and colors sequences have equal
length, that length is the metric num_3d_points, and both sequences are maps
over one list of surviving inlier correspondences, so points[i] and
colors[i] originate from the same surviving correspondence at every index. -/
theorem claim_C4_parallel_outputs (im0 im1 : Image) (calib : Option (List Char))
    (seed : Nat) (out : PipelineOutput)
    (h : runPipeline im0 im1 calib seed = .ok out) :
    out.points.length = out.colors.length ∧
    out.points.length = out.metrics.num_3d_points ∧
    ∃ (ks : CameraIntrinsics × CameraIntrinsics)
      (survivors : List Correspondence) (pose : RelativePose),
      out.points = survivors.map
        (fun c => (triangulateCorr pose ks.1 ks.2 c).getD ⟨0, 0, 0⟩) ∧
      out.colors = survivors.map (fun c => sampleColor im0 c.left) ∧
      out.metrics.num_3d_points = survivors.length ∧
      ∃ cs fi, matchStage im0 im1 = .ok cs ∧
        estimateFundamental seed cs = .ok fi ∧
        recoverPose fi.1 ks.1 ks.2 fi.2 = .ok pose ∧
        survivors = fi.2.filter
          (fun c => decide (survivesTriangulation pose ks.1 ks.2 c)) := by
  obtain ⟨ks, cs, fi, pose, hks, hcs, hfi, hpose, rfl⟩ := runPipeline_ok h
  have htris := triangulateAll_eq pose ks.1 ks.2 im0 fi.2
  constructor
  · simp only [List.length_map]
  constructor
  · simp only [computeMetrics, List.length_map]
  refine ⟨ks,
    fi.2.filter (fun c => decide (survivesTriangulation pose ks.1 ks.2 c)),
    pose, ?_, ?_, ?_, cs, fi, hcs, hfi, hpose, rfl⟩
  · show (triangulateAll pose ks.1 ks.2 im0 fi.2).map (fun t => t.p3d) = _
    rw [htris, List.map_map]
    rfl
  · show (triangulateAll pose ks.1 ks.2 im0 fi.2).map (fun t => t.colr) = _
    rw [htris, List.map_map]
    rfl
  · show (computeMetrics cs.length fi.2.length pose ks.2
      (triangulateAll pose ks.1 ks.2 im0 fi.2)).num_3d_points = _
    simp only [computeMetrics]
    rw [htris, List.length_map]

/-- Witness for C4 on the successful synthetic run. -/
theorem claim_C4_witness :
    sampleOut.points.length = sampleOut.colors.length ∧
    sampleOut.points.length = sampleOut.metrics.num_3d_points ∧
    ∃ (ks : CameraIntrinsics × CameraIntrinsics)
      (survivors : List Correspondence) (pose : RelativePose),
      sampleOut.points = survivors.map
        (fun c => (triangulateCorr pose ks.1 ks.2 c).getD ⟨0, 0, 0⟩) ∧
      sampleOut.colors = survivors.map (fun c => sampleColor imL c.left) ∧
      sampleOut.metrics.num_3d_points = survivors.length ∧
      ∃ cs fi, matchStage imL imR = .ok cs ∧
        estimateFundamental 1 cs = .ok fi ∧
        recoverPose fi.1 ks.1 ks.2 fi.2 = .ok pose ∧
        survivors = fi.2.filter
          (fun c => decide (survivesTriangulation pose ks.1 ks.2 c)) :=
  claim_C4_parallel_outputs imL imR none 1 sampleOut sampleRun_ok

/-- C5: whenever calibration resolution succeeds but fewer than 8
correspondences survive the ratio-test matching stage, the pipeline fails
with the typed error InsufficientMatches and emits no output. -/
theorem claim_C5_insufficient_matches (im0 im1 : Image)
    (calib : Option (List Char)) (seed : Nat)
    (ks : CameraIntrinsics × CameraIntrinsics)
    (hres : resolveCalibration calib im0 im1 = .ok ks)
    (hlt : (matchDescriptors (extractFeatures im0) (extractFeatures im1)).length < 8) :
    runPipeline im0 im1 calib seed = .error .insufficientMatches ∧
    ∀ out, runPipeline im0 im1 calib seed ≠ .ok out := by
  have hms : matchStage im0 im1 = .error .insufficientMatches := by
    unfold matchStage
    rw [if_pos hlt]
  have hrun : runPipeline im0 im1 calib seed = .error .insufficientMatches := by
    unfold runPipeline
    rw [hres]
    simp only [Bind.bind, Except.bind]
    rw [hms]
  exact ⟨hrun, fun out hout => by rw [hrun] at hout; cases hout⟩

/-- Witness for C5: a blank 4×4 stereo pair yields zero keypoints, hence
zero correspondences, and the pipeline fails with InsufficientMatches. -/
theorem claim_C5_witness :
    runPipeline blankIm blankIm none 0 = .error .insufficientMatches ∧
    ∀ out, runPipeline blankIm blankIm none 0 ≠ .ok out := by
  have h0 : matchDescriptors (extractFeatures blankIm) (extractFeatures blankIm) =
      ([] : List Correspondence) := by
    with_unfolding_all rfl
  exact claim_C5_insufficient_matches blankIm blankIm none 0 _ rfl
    (by rw [h0]; simp)

/-- C7: with no calibration file, CalibrationResolver always succeeds,
deriving each view's intrinsics independently from its own dimensions as
f = max(w, h), cx = w/2, cy = h/2; in particular 640×480 yields
f = 640, cx = 320, cy = 240. -/
theorem claim_C7_default_intrinsics :
    (∀ im0 im1 : Image, resolveCalibration none im0 im1 =
      .ok (defaultIntrinsics im0.width im0.height,
        defaultIntrinsics im1.width im1.height)) ∧
    (defaultIntrinsics 640 480).f.toRat = 640 ∧
    (defaultIntrinsics 640 480).cx.toRat = 320 ∧
    (defaultIntrinsics 640 480).cy.toRat = 240 ∧
    ∀ (w h : Nat), (defaultIntrinsics w h).f.toRat = (max w h : Nat) ∧
      (defaultIntrinsics w h).cx.toRat = (w : ℚ) / 2 ∧
      (defaultIntrinsics w h).cy.toRat = (h : ℚ) / 2 := by
  refine ⟨fun im0 im1 => rfl, by with_unfolding_all rfl,
    by with_unfolding_all rfl, by with_unfolding_all rfl, fun w h => ⟨?_, ?_, ?_⟩⟩
  · simp only [defaultIntrinsics, DecLit.toRat]
    push_cast
    ring
  · simp only [defaultIntrinsics, DecLit.toRat]
    push_cast
    field_simp
    ring
  · simp only [defaultIntrinsics, DecLit.toRat]
    push_cast
    field_simp
    ring

/-- C8: the reported baseline_length metric is the norm of the recovered
pose's translation (ratSqrt of its squared norm), and since every recovered
translation is unit-normalized by construction, baseline_length equals 1 on
every successful run. -/
theorem claim_C8_baseline_length :
    (∀ (nm ni : Nat) (pose : RelativePose) (i1 : CameraIntrinsics)
        (tris : List TriangulatedPoint),
      (computeMetrics nm ni pose i1 tris).baseline_length =
        ratSqrt pose.t.normSq) ∧
    ∀ (im0 im1 : Image) (calib : Option (List Char)) (seed : Nat)
      (out : PipelineOutput), runPipeline im0 im1 calib seed = .ok out →
      ∃ ks cs fi pose, resolveCalibration calib im0 im1 = .ok ks ∧
        matchStage im0 im1 = .ok cs ∧ estimateFundamental seed cs = .ok fi ∧
        recoverPose fi.1 ks.1 ks.2 fi.2 = .ok pose ∧
        pose.t.normSq = 1 ∧
        out.metrics.baseline_length = ratSqrt pose.t.normSq ∧
        out.metrics.baseline_length = 1 := by
  constructor
  · intro nm ni pose i1 tris
    simp only [computeMetrics]
  · intro im0 im1 calib seed out h
    obtain ⟨ks, cs, fi, pose, hks, hcs, hfi, hpose, rfl⟩ := runPipeline_ok h
    have hunit := recoverPose_ok hpose
    refine ⟨ks, cs, fi, pose, hks, hcs, hfi, hpose, hunit, ?_, ?_⟩
    · simp only [computeMetrics]
    · simp only [computeMetrics]
      rw [hunit, ratSqrt_one]

/-- Witness for C8 on the successful synthetic run. -/
theorem claim_C8_witness :
    (computeMetrics 8 8 poseLit intrLit trisLit).baseline_length =
      ratSqrt poseLit.t.normSq ∧
    ∃ ks cs fi pose, resolveCalibration none imL imR = .ok ks ∧
      matchStage imL imR = .ok cs ∧ estimateFundamental 1 cs = .ok fi ∧
      recoverPose fi.1 ks.1 ks.2 fi.2 = .ok pose ∧
      pose.t.normSq = 1 ∧
      sampleOut.metrics.baseline_length = ratSqrt pose.t.normSq ∧
      sampleOut.metrics.baseline_length = 1 :=
  ⟨claim_C8_baseline_length.1 8 8 poseLit intrLit trisLit,
   claim_C8_baseline_length.2 imL imR none 1 sampleOut sampleRun_ok⟩

/-- C9: for every HTTP response with a non-OK status, both frontend
implementations of runReconstruction throw (return an error) and never
resolve with a result; the message is the body's detail string when the
parsed body carries one, and otherwise the respective fallback
("HTTP <status>" in `api/reconstruction.ts`, "Reconstruction failed" in the
openapi-fetch variant), so an error response can never be mistaken for a
successful result. -/
theorem claim_C9_error_responses (r : HttpResponse)
    (hno : ¬ (200 ≤ r.status ∧ r.status ≤ 299)) :
    (∀ res, runReconstructionA r ≠ .ok res) ∧
    (∀ res, runReconstructionB r ≠ .ok res) ∧
    (∀ d, r.jsonDetail = some (some d) →
      runReconstructionA r = .error d ∧ runReconstructionB r = .error d) ∧
    ((∀ d, r.jsonDetail ≠ some (some d)) →
      runReconstructionA r = .error (httpFallback r.status) ∧
      runReconstructionB r = .error reconFailedMsg) := by
  have hA : runReconstructionA r = .error
      (match r.jsonDetail with
       | some (some d) => d
       | _ => httpFallback r.status) := by
    unfold runReconstructionA
    rw [if_neg hno]
  have hB : runReconstructionB r = .error
      (match r.jsonDetail with
       | some (some d) => d
       | _ => reconFailedMsg) := by
    unfold runReconstructionB
    rw [if_neg hno]
  refine ⟨?_, ?_, ?_, ?_⟩
  · intro res h
    rw [hA] at h
    cases h
  · intro res h
    rw [hB] at h
    cases h
  · intro d hd
    rw [hA, hB, hd]
    exact ⟨rfl, rfl⟩
  · intro hnd
    rw [hA, hB]
    constructor
    · congr 1
      match hj : r.jsonDetail with
      | none => rfl
      | some none => rfl
      | some (some d) => exact absurd hj (hnd d)
    · congr 1
      match hj : r.jsonDetail with
      | none => rfl
      | some none => rfl
      | some (some d) => exact absurd hj (hnd d)

/-- Witness for C9 at a concrete 500 response with a detail body and a
concrete 404 response with an unparseable body. -/
theorem claim_C9_witness :
    (∀ res, runReconstructionA ⟨500, some (some ['b', 'a', 'd']), ⟨[], [], ⟨0, 0, 0, 0, 0, 0, 0, 0⟩⟩⟩ ≠ .ok res) ∧
    (∀ res, runReconstructionB ⟨500, some (some ['b', 'a', 'd']), ⟨[], [], ⟨0, 0, 0, 0, 0, 0, 0, 0⟩⟩⟩ ≠ .ok res) ∧
    (∀ d, (⟨500, some (some ['b', 'a', 'd']), ⟨[], [], ⟨0, 0, 0, 0, 0, 0, 0, 0⟩⟩⟩ : HttpResponse).jsonDetail = some (some d) →
      runReconstructionA ⟨500, some (some ['b', 'a', 'd']), ⟨[], [], ⟨0, 0, 0, 0, 0, 0, 0, 0⟩⟩⟩ = .error d ∧
      runReconstructionB ⟨500, some (some ['b', 'a', 'd']), ⟨[], [], ⟨0, 0, 0, 0, 0, 0, 0, 0⟩⟩⟩ = .error d) ∧
    ((∀ d, (⟨500, some (some ['b', 'a', 'd']), ⟨[], [], ⟨0, 0, 0, 0, 0, 0, 0, 0⟩⟩⟩ : HttpResponse).jsonDetail ≠ some (some d)) →
      runReconstructionA ⟨500, some (some ['b', 'a', 'd']), ⟨[], [], ⟨0, 0, 0, 0, 0, 0, 0, 0⟩⟩⟩ = .error (httpFallback 500) ∧
      runReconstructionB ⟨500, some (some ['b', 'a', 'd']), ⟨[], [], ⟨0, 0, 0, 0, 0, 0, 0, 0⟩⟩⟩ = .error reconFailedMsg) :=
  claim_C9_error_responses ⟨500, some (some ['b', 'a', 'd']), ⟨[], [], ⟨0, 0, 0, 0, 0, 0, 0, 0⟩⟩⟩ (by decide)

theorem flatMapTriple_length {a : Type} (f g h : a → ℚ) (l : List a) :
    (l.flatMap (fun x => [f x, g x, h x])).length = 3 * l.length := by
  induction l with
  | nil => simp
  | cons x l ih =>
    simp only [List.flatMap_cons, List.length_append, ih, List.length_cons,
      List.length_nil]
    ring

theorem flatMapTriple_sum (f g h : a → ℚ) (l : List a) :
    (l.flatMap (fun x => [f x, g x, h x])).sum =
      (l.map f).sum + (l.map g).sum + (l.map h).sum := by
  induction l with
  | nil => simp
  | cons x l ih =>
    simp only [List.flatMap_cons, List.sum_append, ih, List.map_cons,
      List.sum_cons, List.sum_nil]
    ring

theorem flatMapTriple_getD {a : Type} (f g h : a → ℚ) (d : a) :
    ∀ (l : List a) (i : Nat), i < l.length →
      (l.flatMap (fun x => [f x, g x, h x])).getD (3 * i) 0 = f (l.getD i d) ∧
      (l.flatMap (fun x => [f x, g x, h x])).getD (3 * i + 1) 0 = g (l.getD i d) ∧
      (l.flatMap (fun x => [f x, g x, h x])).getD (3 * i + 2) 0 = h (l.getD i d) := by
  intro l
  induction l with
  | nil => intro i hi; cases hi
  | cons x l ih =>
    intro i hi
    match i with
    | 0 => simp [List.flatMap_cons]
    | j + 1 =>
      have hj : j < l.length := by simpa using hi
      have e : 3 * (j + 1) = 3 * j + 1 + 1 + 1 := by ring
      simp only [List.flatMap_cons, List.cons_append, List.nil_append, e,
        List.getD_cons_succ, List.getD_cons_zero]
      simpa using ih j hj

theorem sum_map_sub_const (l : List Vec3) (f : Vec3 → ℚ) (k : ℚ) :
    (l.map (fun p => f p - k)).sum = (l.map f).sum - l.length * k := by
  induction l with
  | nil => simp
  | cons x l ih =>
    simp only [List.map_cons, List.sum_cons, ih, List.length_cons]
    push_cast
    ring

/-- C10: for every non-empty points list (and a colour list of matching
length, as supplied by the API contract), the PointCloud component's
positions buffer is each point translated by the centroid of all points
(componentwise, at consistent flat indices 3i, 3i+1, 3i+2), so the rendered
positions sum to zero, while the colour buffer is the colour triples copied
unchanged in the same order; both buffers have length 3 × points.length. -/
theorem claim_C10_pointcloud_buffers (points colors : List Vec3)
    (hne : points ≠ []) (hlen : colors.length = points.length) :
    (pointCloudPositions points).length = 3 * points.length ∧
    (pointCloudColors points colors).length = 3 * points.length ∧
    pointCloudColors points colors =
      colors.flatMap (fun q => [q.x, q.y, q.z]) ∧
    (∀ i, i < points.length →
      (pointCloudPositions points).getD (3 * i) 0 =
        (points.getD i ⟨0, 0, 0⟩).x - (centroid3 points).x ∧
      (pointCloudPositions points).getD (3 * i + 1) 0 =
        (points.getD i ⟨0, 0, 0⟩).y - (centroid3 points).y ∧
      (pointCloudPositions points).getD (3 * i + 2) 0 =
        (points.getD i ⟨0, 0, 0⟩).z - (centroid3 points).z ∧
      (pointCloudColors points colors).getD (3 * i) 0 =
        (colors.getD i ⟨0, 0, 0⟩).x ∧
      (pointCloudColors points colors).getD (3 * i + 1) 0 =
        (colors.getD i ⟨0, 0, 0⟩).y ∧
      (pointCloudColors points colors).getD (3 * i + 2) 0 =
        (colors.getD i ⟨0, 0, 0⟩).z) ∧
    (pointCloudPositions points).sum = 0 := by
  have hcopy : pointCloudColors points colors =
      colors.flatMap (fun q => [q.x, q.y, q.z]) := by
    unfold pointCloudColors
    rw [← hlen, List.take_length]
  have hn : ((points.length : ℚ)) ≠ 0 := by
    have : points.length ≠ 0 := by
      intro h0
      exact hne (List.length_eq_zero.mp h0)
    exact_mod_cast this
  refine ⟨flatMapTriple_length _ _ _ _, ?_, hcopy, ?_, ?_⟩
  · rw [hcopy, flatMapTriple_length, hlen]
  · intro i hi
    have hip := flatMapTriple_getD
      (fun p => p.x - (centroid3 points).x)
      (fun p => p.y - (centroid3 points).y)
      (fun p => p.z - (centroid3 points).z) ⟨0, 0, 0⟩ points i hi
    have hic := flatMapTriple_getD Vec3.x Vec3.y Vec3.z ⟨0, 0, 0⟩ colors i
      (by rw [hlen]; exact hi)
    rw [hcopy]
    exact ⟨hip.1, hip.2.1, hip.2.2, hic.1, hic.2.1, hic.2.2⟩
  · unfold pointCloudPositions
    rw [flatMapTriple_sum]
    rw [sum_map_sub_const, sum_map_sub_const, sum_map_sub_const]
    unfold centroid3
    field_simp

/-- Witness for C10 at a concrete two-point cloud. -/
theorem claim_C10_witness :
    (pointCloudPositions [⟨1, 2, 3⟩, ⟨3, 4, 7⟩]).length = 3 * 2 ∧
    (pointCloudColors [⟨1, 2, 3⟩, ⟨3, 4, 7⟩] [⟨1, 0, 0⟩, ⟨0, 1, 0⟩]).length = 3 * 2 ∧
    pointCloudColors [⟨1, 2, 3⟩, ⟨3, 4, 7⟩] [⟨1, 0, 0⟩, ⟨0, 1, 0⟩] =
      ([⟨1, 0, 0⟩, ⟨0, 1, 0⟩] : List Vec3).flatMap (fun q => [q.x, q.y, q.z]) ∧
    (∀ i, i < ([⟨1, 2, 3⟩, ⟨3, 4, 7⟩] : List Vec3).length →
      (pointCloudPositions [⟨1, 2, 3⟩, ⟨3, 4, 7⟩]).getD (3 * i) 0 =
        (([⟨1, 2, 3⟩, ⟨3, 4, 7⟩] : List Vec3).getD i ⟨0, 0, 0⟩).x -
          (centroid3 [⟨1, 2, 3⟩, ⟨3, 4, 7⟩]).x ∧
      (pointCloudPositions [⟨1, 2, 3⟩, ⟨3, 4, 7⟩]).getD (3 * i + 1) 0 =
        (([⟨1, 2, 3⟩, ⟨3, 4, 7⟩] : List Vec3).getD i ⟨0, 0, 0⟩).y -
          (centroid3 [⟨1, 2, 3⟩, ⟨3, 4, 7⟩]).y ∧
      (pointCloudPositions [⟨1, 2, 3⟩, ⟨3, 4, 7⟩]).getD (3 * i + 2) 0 =
        (([⟨1, 2, 3⟩, ⟨3, 4, 7⟩] : List Vec3).getD i ⟨0, 0, 0⟩).z -
          (centroid3 [⟨1, 2, 3⟩, ⟨3, 4, 7⟩]).z ∧
      (pointCloudColors [⟨1, 2, 3⟩, ⟨3, 4, 7⟩] [⟨1, 0, 0⟩, ⟨0, 1, 0⟩]).getD (3 * i) 0 =
        (([⟨1, 0, 0⟩, ⟨0, 1, 0⟩] : List Vec3).getD i ⟨0, 0, 0⟩).x ∧
      (pointCloudColors [⟨1, 2, 3⟩, ⟨3, 4, 7⟩] [⟨1, 0, 0⟩, ⟨0, 1, 0⟩]).getD (3 * i + 1) 0 =
        (([⟨1, 0, 0⟩, ⟨0, 1, 0⟩] : List Vec3).getD i ⟨0, 0, 0⟩).y ∧
      (pointCloudColors [⟨1, 2, 3⟩, ⟨3, 4, 7⟩] [⟨1, 0, 0⟩, ⟨0, 1, 0⟩]).getD (3 * i + 2) 0 =
        (([⟨1, 0, 0⟩, ⟨0, 1, 0⟩] : List Vec3).getD i ⟨0, 0, 0⟩).z) ∧
    (pointCloudPositions [⟨1, 2, 3⟩, ⟨3, 4, 7⟩]).sum = 0 :=
  claim_C10_pointcloud_buffers [⟨1, 2, 3⟩, ⟨3, 4, 7⟩] [⟨1, 0, 0⟩, ⟨0, 1, 0⟩]
    (by simp) (by simp)

/-! Lemmas about the calibration grammar, its parser and its serializer. -/

theorem charDigit_digitChar {d : Nat} (hd : d < 10) :
    charDigit (digitChar d) = some d := by
  interval_cases d <;> decide

theorem charDigit_sound {c : Char} {d : Nat} (h : charDigit c = some d) :
    c = digitChar d ∧ d < 10 := by
  unfold charDigit at h
  split at h
  · rename_i hc
    cases h
    constructor
    · unfold digitChar
      have : 48 + (c.toNat - 48) = c.toNat := by omega
      rw [this, Char.ofNat_toNat]
    · omega
  · cases h

theorem takeDigits_sound :
    ∀ {cs : List Char} {ds : List Nat} {rest : List Char},
      takeDigits cs = (ds, rest) →
      cs = ds.map digitChar ++ rest ∧ (∀ d ∈ ds, d < 10) ∧ noDigitHead rest := by
  intro cs
  induction cs with
  | nil => intro ds rest h; cases h; exact ⟨rfl, by simp, trivial⟩
  | cons c cs ih =>
    intro ds rest h
    unfold takeDigits at h
    split at h
    · rename_i d hd
      cases h
      obtain ⟨he, hlt, hnd⟩ := ih Prod.mk.eta.symm
      obtain ⟨hc, hd10⟩ := charDigit_sound hd
      constructor
      · rw [List.map_cons, ← hc, List.cons_append, ← he]
      · constructor
        · intro x hx
          rcases List.mem_cons.mp hx with rfl | hx
          · exact hd10
          · exact hlt x hx
        · exact hnd
    · rename_i hd
      cases h
      exact ⟨rfl, by simp, hd⟩

theorem takeDigits_exact {ds : List Nat} {rest : List Char}
    (hds : ∀ d ∈ ds, d < 10) (hrest : noDigitHead rest) :
    takeDigits (ds.map digitChar ++ rest) = (ds, rest) := by
  induction ds with
  | nil =>
    cases rest with
    | nil => rfl
    | cons c cs =>
      unfold takeDigits
      simp only [List.map_nil, List.nil_append]
      split
      · rename_i d hd
        rw [show charDigit c = none from hrest] at hd
        cases hd
      · rfl
  | cons d ds ih =>
    unfold takeDigits
    simp only [List.map_cons, List.cons_append]
    rw [charDigit_digitChar (hds d (by simp))]
    rw [ih (fun x hx => hds x (by simp [hx]))]

theorem natOfBE_cons_zero (ds : List Nat) : natOfBE (0 :: ds) = natOfBE ds := by
  unfold natOfBE
  simp

theorem natOfBE_zeros (k : Nat) (ds : List Nat) :
    natOfBE (List.replicate k 0 ++ ds) = natOfBE ds := by
  induction k with
  | zero => rfl
  | succ k ih =>
    rw [List.replicate_succ, List.cons_append, natOfBE_cons_zero, ih]

theorem natOfBE_digitsRev (n : Nat) :
    natOfBE ((Nat.digits 10 n).reverse) = n := by
  unfold natOfBE
  rw [List.foldl_reverse]
  have : ∀ l : List Nat, l.foldr (fun x y => 10 * y + x) 0 = Nat.ofDigits 10 l := by
    intro l
    induction l with
    | nil => simp [Nat.ofDigits]
    | cons d l ih =>
      simp only [List.foldr_cons, ih, Nat.ofDigits_cons]
      ring
  rw [this, Nat.ofDigits_digits]

theorem natOfBE_writeNatBE (n minLen : Nat) : natOfBE (writeNatBE n minLen) = n := by
  unfold writeNatBE
  rw [natOfBE_zeros, natOfBE_digitsRev]

theorem writeNatBE_lt (n minLen : Nat) : ∀ d ∈ writeNatBE n minLen, d < 10 := by
  intro d hd
  unfold writeNatBE at hd
  rcases List.mem_append.mp hd with hz | hdig
  · have := List.eq_of_mem_replicate hz
    omega
  · exact Nat.digits_lt_base (by omega) (List.mem_reverse.mp hdig)

theorem writeNatBE_length (n minLen : Nat) :
    minLen ≤ (writeNatBE n minLen).length := by
  unfold writeNatBE
  rw [List.length_append, List.length_replicate]
  omega

theorem digitChar_ne_dot {d : Nat} (hd : d < 10) : digitChar d ≠ '.' := by
  interval_cases d <;> decide

theorem digitChar_ne_dash {d : Nat} (hd : d < 10) : digitChar d ≠ '-' := by
  interval_cases d <;> decide

theorem digitChar_ne_nl {d : Nat} (hd : d < 10) : digitChar d ≠ '\n' := by
  interval_cases d <;> decide

theorem parseUDecSpan_flat {A : List Nat} {rest : List Char}
    (hA : A ≠ []) (hAlt : ∀ d ∈ A, d < 10)
    (hnd : noDigitHead rest) (hdot : noDotHead rest) :
    parseUDecSpan (A.map digitChar ++ rest) =
      some (⟨(natOfBE A : ℤ), 0⟩, A.map digitChar, rest) := by
  unfold parseUDecSpan
  rw [takeDigits_exact hAlt hnd]
  match A, hA with
  | d :: ds, _ =>
    simp only []
    split
    · rename_i rest2
      exact absurd rfl (hdot rest2)
    · rfl

theorem parseUDecSpan_dotted {A B : List Nat} {rest : List Char}
    (hA : A ≠ []) (hB : B ≠ []) (hAlt : ∀ d ∈ A, d < 10)
    (hBlt : ∀ d ∈ B, d < 10) (hnd : noDigitHead rest) :
    parseUDecSpan (A.map digitChar ++ '.' :: (B.map digitChar ++ rest)) =
      some (⟨(natOfBE (A ++ B) : ℤ), B.length⟩,
        A.map digitChar ++ '.' :: B.map digitChar, rest) := by
  unfold parseUDecSpan
  have h1 : takeDigits (A.map digitChar ++ '.' :: (B.map digitChar ++ rest)) =
      (A, '.' :: (B.map digitChar ++ rest)) :=
    takeDigits_exact hAlt (by exact rfl)
  rw [h1]
  match A, hA with
  | d :: ds, _ =>
    simp only []
    rw [takeDigits_exact hBlt hnd]
    match B, hB with
    | f :: fs, _ =>
      simp only [List.length_cons, List.cons_append]

theorem parseSDecSpan_of_noDash {cs : List Char} (h : noDashHead cs) :
    parseSDecSpan cs = parseUDecSpan cs := by
  unfold parseSDecSpan
  split
  · rename_i cs2
    exact absurd rfl (h cs2)
  · rfl

theorem noDashHead_digits {A : List Nat} {rest : List Char} (hA : A ≠ [])
    (hlt : ∀ d ∈ A, d < 10) : noDashHead (A.map digitChar ++ rest) := by
  match A, hA with
  | d :: ds, _ =>
    intro cs2 h
    simp only [List.map_cons, List.cons_append, List.cons.injEq] at h
    exact digitChar_ne_dash (hlt d (by simp)) h.1

theorem writeDecChars_unsigned (d : DecLit) (h : ¬ d.mant < 0) :
    writeDecChars d =
      (if d.frac = 0 then (writeNatBE d.mant.natAbs (d.frac + 1)).map digitChar
       else ((writeNatBE d.mant.natAbs (d.frac + 1)).take
          ((writeNatBE d.mant.natAbs (d.frac + 1)).length - d.frac)).map digitChar ++
        '.' :: ((writeNatBE d.mant.natAbs (d.frac + 1)).drop
          ((writeNatBE d.mant.natAbs (d.frac + 1)).length - d.frac)).map digitChar) := by
  unfold writeDecChars
  rw [if_neg h]

theorem writeDecChars_signed (d : DecLit) (h : d.mant < 0) :
    writeDecChars d =
      '-' :: (if d.frac = 0 then (writeNatBE d.mant.natAbs (d.frac + 1)).map digitChar
       else ((writeNatBE d.mant.natAbs (d.frac + 1)).take
          ((writeNatBE d.mant.natAbs (d.frac + 1)).length - d.frac)).map digitChar ++
        '.' :: ((writeNatBE d.mant.natAbs (d.frac + 1)).drop
          ((writeNatBE d.mant.natAbs (d.frac + 1)).length - d.frac)).map digitChar) := by
  unfold writeDecChars
  rw [if_pos h]

theorem parseUDecSpan_writeCore (n frac : Nat) (rest : List Char)
    (hnd : noDigitHead rest) (hdot : noDotHead rest) :
    parseUDecSpan
      ((if frac = 0 then (writeNatBE n (frac + 1)).map digitChar
        else ((writeNatBE n (frac + 1)).take
            ((writeNatBE n (frac + 1)).length - frac)).map digitChar ++
          '.' :: ((writeNatBE n (frac + 1)).drop
            ((writeNatBE n (frac + 1)).length - frac)).map digitChar) ++ rest) =
      some (⟨(n : ℤ), frac⟩,
        (if frac = 0 then (writeNatBE n (frac + 1)).map digitChar
         else ((writeNatBE n (frac + 1)).take
            ((writeNatBE n (frac + 1)).length - frac)).map digitChar ++
          '.' :: ((writeNatBE n (frac + 1)).drop
            ((writeNatBE n (frac + 1)).length - frac)).map digitChar), rest) := by
  have hlen := writeNatBE_length n (frac + 1)
  have hlt := writeNatBE_lt n (frac + 1)
  by_cases hf : frac = 0
  · subst hf
    simp only [Nat.zero_add, if_true, eq_self_iff_true] at hlen hlt ⊢
    have hne : writeNatBE n 1 ≠ [] := by
      intro h0
      have := writeNatBE_length n 1
      rw [h0] at this
      simp at this
    rw [parseUDecSpan_flat hne hlt hnd hdot, natOfBE_writeNatBE]
  · simp only [if_neg hf]
    have hA : (writeNatBE n (frac + 1)).take
        ((writeNatBE n (frac + 1)).length - frac) ≠ [] := by
      intro h0
      have := congrArg List.length h0
      rw [List.length_take] at this
      simp only [List.length_nil] at this
      omega
    have hB : (writeNatBE n (frac + 1)).drop
        ((writeNatBE n (frac + 1)).length - frac) ≠ [] := by
      intro h0
      have := congrArg List.length h0
      rw [List.length_drop] at this
      simp only [List.length_nil] at this
      omega
    have hAlt : ∀ d ∈ (writeNatBE n (frac + 1)).take
        ((writeNatBE n (frac + 1)).length - frac), d < 10 :=
      fun d hd => hlt d (List.take_subset _ _ hd)
    have hBlt : ∀ d ∈ (writeNatBE n (frac + 1)).drop
        ((writeNatBE n (frac + 1)).length - frac), d < 10 :=
      fun d hd => hlt d (List.drop_subset _ _ hd)
    rw [List.append_assoc, List.cons_append]
    rw [parseUDecSpan_dotted hA hB hAlt hBlt hnd]
    rw [List.take_append_drop, natOfBE_writeNatBE, List.length_drop]
    have he : (writeNatBE n (frac + 1)).length -
        ((writeNatBE n (frac + 1)).length - frac) = frac := by omega
    rw [he]

theorem parseSDecSpan_dash (cs : List Char) :
    parseSDecSpan ('-' :: cs) =
      match parseUDecSpan cs with
      | some (d0, span, r) => some (⟨-d0.mant, d0.frac⟩, '-' :: span, r)
      | none => none := rfl

theorem parseSDecSpan_write (d : DecLit) (rest : List Char)
    (hnd : noDigitHead rest) (hdot : noDotHead rest) :
    parseSDecSpan (writeDecChars d ++ rest) = some (d, writeDecChars d, rest) := by
  obtain ⟨m, fr⟩ := d
  have hcore := parseUDecSpan_writeCore m.natAbs fr rest hnd hdot
  have hwne : (writeNatBE m.natAbs (fr + 1)) ≠ [] := by
    intro h0
    have := writeNatBE_length m.natAbs (fr + 1)
    rw [h0] at this
    simp at this
  have hwlt := writeNatBE_lt m.natAbs (fr + 1)
  have htne : (writeNatBE m.natAbs (fr + 1)).take
      ((writeNatBE m.natAbs (fr + 1)).length - fr) ≠ [] := by
    intro h0
    have h1 := congrArg List.length h0
    have h2 := writeNatBE_length m.natAbs (fr + 1)
    rw [List.length_take] at h1
    simp only [List.length_nil] at h1
    omega
  have hdash : noDashHead
      ((if fr = 0 then (writeNatBE m.natAbs (fr + 1)).map digitChar
        else ((writeNatBE m.natAbs (fr + 1)).take
            ((writeNatBE m.natAbs (fr + 1)).length - fr)).map digitChar ++
          '.' :: ((writeNatBE m.natAbs (fr + 1)).drop
            ((writeNatBE m.natAbs (fr + 1)).length - fr)).map digitChar) ++ rest) := by
    by_cases hf : fr = 0
    · rw [if_pos hf]
      exact noDashHead_digits hwne hwlt
    · rw [if_neg hf, List.append_assoc]
      exact noDashHead_digits htne
        (fun x hx => hwlt x (List.take_subset _ _ hx))
  by_cases hm : m < 0
  · rw [writeDecChars_signed ⟨m, fr⟩ hm]
    simp only at hcore ⊢
    rw [List.cons_append, parseSDecSpan_dash, hcore]
    have hn : -((m.natAbs : ℤ)) = m := by omega
    simp only [hn]
  · rw [writeDecChars_unsigned ⟨m, fr⟩ hm]
    simp only at hcore ⊢
    rw [parseSDecSpan_of_noDash hdash, hcore]
    have hn : ((m.natAbs : ℤ)) = m := by omega
    simp only [hn]

theorem expectChars_append (pat rest : List Char) :
    expectChars pat (pat ++ rest) = some rest := by
  induction pat with
  | nil => rfl
  | cons p ps ih =>
    rw [List.cons_append]
    unfold expectChars
    rw [if_pos rfl]
    exact ih

theorem expectChars_sound :
    ∀ {pat cs rest : List Char}, expectChars pat cs = some rest →
      cs = pat ++ rest := by
  intro pat
  induction pat with
  | nil =>
    intro cs rest h
    cases h
    rfl
  | cons p ps ih =>
    intro cs rest h
    cases cs with
    | nil => cases h
    | cons c cs2 =>
      unfold expectChars at h
      split at h
      · rename_i hc
        rw [List.cons_append, ← ih h, hc]
      · cases h

theorem noDigitHead_space (l : List Char) : noDigitHead (' ' :: l) := by
  show charDigit ' ' = none
  decide

theorem noDigitHead_semi (l : List Char) : noDigitHead (';' :: l) := by
  show charDigit ';' = none
  decide

theorem noDotHead_space (l : List Char) : noDotHead (' ' :: l) := by
  intro cs2 h
  injection h with h1 _
  cases h1

theorem noDotHead_semi (l : List Char) : noDotHead (';' :: l) := by
  intro cs2 h
  injection h with h1 _
  cases h1

theorem parseCalibLine_write (n : Char) (i : CameraIntrinsics) :
    parseCalibLine n (writeCalibLine n i) = some (i.f, i.cx, i.cy) := by
  have hf := parseSDecSpan_write i.f
    (' ' :: '0' :: ' ' :: (writeDecChars i.cx ++ ';' :: ' ' :: '0' :: ' ' ::
      (writeDecChars i.f ++ ' ' :: (writeDecChars i.cy ++
        [';', ' ', '0', ' ', '0', ' ', '1', ']']))))
    (noDigitHead_space _) (noDotHead_space _)
  have hcx := parseSDecSpan_write i.cx
    (';' :: ' ' :: '0' :: ' ' :: (writeDecChars i.f ++ ' ' ::
      (writeDecChars i.cy ++ [';', ' ', '0', ' ', '0', ' ', '1', ']'])))
    (noDigitHead_semi _) (noDotHead_semi _)
  have hcy := parseSDecSpan_write i.cy [';', ' ', '0', ' ', '0', ' ', '1', ']']
    (noDigitHead_semi _) (noDotHead_semi _)
  have e1 : ∀ l : List Char, expectChars [' ', '0', ' '] (' ' :: '0' :: ' ' :: l) = some l :=
    fun l => rfl
  have e2 : ∀ l : List Char,
      expectChars [';', ' ', '0', ' '] (';' :: ' ' :: '0' :: ' ' :: l) = some l :=
    fun l => rfl
  have e3 : ∀ l : List Char, expectChars [' '] (' ' :: l) = some l := fun l => rfl
  unfold parseCalibLine writeCalibLine
  simp only [List.append_assoc, List.cons_append, List.nil_append]
  simp only [Bind.bind, Option.bind, expectChars_append, hf, hcx, hcy, e1, e2, e3]
  rfl

theorem parseUDecSpan_sound {cs span rest : List Char} {d : DecLit}
    (h : parseUDecSpan cs = some (d, span, rest)) :
    cs = span ++ rest ∧
      ∃ ip fp : List Nat, ip ≠ [] ∧ (∀ x ∈ ip, x < 10) ∧ (∀ x ∈ fp, x < 10) ∧
        span = ip.map digitChar ++
          (if fp = [] then [] else '.' :: fp.map digitChar) := by
  unfold parseUDecSpan at h
  split at h
  · cases h
  · rename_i d0 ds rest1 htake
    obtain ⟨hcs, hlt, hnd⟩ := takeDigits_sound htake
    split at h
    · rename_i rest2
      split at h
      · cases h
      · rename_i f fs rest3 htake2
        obtain ⟨hr2, hlt2, hnd2⟩ := takeDigits_sound htake2
        cases h
        refine ⟨?_, (d0 :: ds), (f :: fs), by simp, hlt, hlt2, by simp⟩
        rw [hcs, hr2]
        simp
    · cases h
      exact ⟨hcs, (d0 :: ds), [], by simp, hlt, by simp, by simp⟩

theorem parseSDecSpan_sound {cs span rest : List Char} {d : DecLit}
    (h : parseSDecSpan cs = some (d, span, rest)) :
    cs = span ++ rest ∧ IsFloatLit span := by
  cases cs with
  | nil =>
    cases h
  | cons c cs2 =>
    by_cases hc : c = '-'
    · subst hc
      rw [parseSDecSpan_dash] at h
      split at h
      · rename_i d0 span0 rest0 hu
        cases h
        obtain ⟨hcs, ip, fp, hip, hlt, hlt2, hspan⟩ := parseUDecSpan_sound hu
        constructor
        · rw [List.cons_append, hcs]
        · exact ⟨true, ip, fp, hip, hlt, hlt2, by rw [hspan]; simp⟩
      · cases h
    · have hnodash : noDashHead (c :: cs2) := by
        intro l hl
        injection hl with h1 _
        exact hc h1
      rw [parseSDecSpan_of_noDash hnodash] at h
      obtain ⟨hcs, ip, fp, hip, hlt, hlt2, hspan⟩ := parseUDecSpan_sound h
      exact ⟨hcs, false, ip, fp, hip, hlt, hlt2, by rw [hspan]; simp⟩

theorem parseCalibLine_sound {n : Char} {cs : List Char}
    {t : DecLit × DecLit × DecLit}
    (h : parseCalibLine n cs = some t) : CalibLineGrammar n cs := by
  unfold parseCalibLine at h
  simp only [Bind.bind, Option.bind_eq_some] at h
  obtain ⟨r1, h1, ⟨fv, fSpan, r2⟩, h2, r3, h3, ⟨cxv, cxSpan, r4⟩, h4,
    r5, h5, r6, h6, r7, h7, ⟨cyv, cySpan, r8⟩, h8, r9, h9, h0⟩ := h
  dsimp only at h3 h5 h6 h9 h0
  split at h0
  · rename_i h90
    have hcs := expectChars_sound h1
    obtain ⟨hr1, hfL⟩ := parseSDecSpan_sound h2
    have hr2 := expectChars_sound h3
    obtain ⟨hr3, hcxL⟩ := parseSDecSpan_sound h4
    have hr4 := expectChars_sound h5
    have hr5 := expectChars_sound h6
    have hr6 := expectChars_sound h7
    obtain ⟨hr7, hcyL⟩ := parseSDecSpan_sound h8
    have hr8 := expectChars_sound h9
    refine ⟨fSpan, cxSpan, cySpan, hfL, hcxL, hcyL, ?_⟩
    subst h90
    rw [hcs, hr1, hr2, hr3, hr4, hr5, hr6, hr7, hr8]
    simp
  · cases h0

theorem splitNl_ne_nil : ∀ cs : List Char, splitNl cs ≠ [] := by
  intro cs
  cases cs with
  | nil => simp [splitNl]
  | cons c cs =>
    unfold splitNl
    split
    · simp
    · split
      · simp
      · simp

theorem splitNl_no_nl : ∀ {l : List Char}, '\n' ∉ l → splitNl l = [l] := by
  intro l
  induction l with
  | nil => intro _; rfl
  | cons c cs ih =>
    intro h
    unfold splitNl
    rw [if_neg (by intro hc; exact h (by simp [hc]))]
    rw [ih (fun hm => h (by simp [hm]))]

theorem splitNl_append_nl : ∀ {l0 : List Char} (l1 : List Char), '\n' ∉ l0 →
    splitNl (l0 ++ '\n' :: l1) = l0 :: splitNl l1 := by
  intro l0
  induction l0 with
  | nil =>
    intro l1 _
    simp [splitNl]
  | cons c cs ih =>
    intro l1 h
    rw [List.cons_append]
    conv_lhs => rw [splitNl]
    rw [if_neg (by intro hc; exact h (by simp [hc]))]
    rw [ih l1 (fun hm => h (by simp [hm]))]

theorem splitNl_eq_one : ∀ {cs l : List Char}, splitNl cs = [l] → cs = l := by
  intro cs
  induction cs with
  | nil =>
    intro l h
    cases h
    rfl
  | cons c cs ih =>
    intro l h
    unfold splitNl at h
    split at h
    · rename_i hc
      injection h with h1 h2
      exact absurd h2 (splitNl_ne_nil cs)
    · rename_i hc
      split at h
      · rename_i hsp
        exact absurd hsp (splitNl_ne_nil cs)
      · rename_i l' ls hsp
        cases h
        rw [ih hsp]

theorem splitNl_eq_two : ∀ {cs l0 l1 : List Char}, splitNl cs = [l0, l1] →
    cs = l0 ++ '\n' :: l1 := by
  intro cs
  induction cs with
  | nil =>
    intro l0 l1 h
    cases h
  | cons c cs ih =>
    intro l0 l1 h
    unfold splitNl at h
    split at h
    · rename_i hc
      injection h with h1 h2
      have := splitNl_eq_one (by rw [h2])
      subst hc
      rw [← h1, this]
      rfl
    · rename_i hc
      split at h
      · rename_i hsp
        exact absurd hsp (splitNl_ne_nil cs)
      · rename_i l' ls hsp
        injection h with h1 h2
        have := ih (by rw [hsp, h2])
        rw [← h1, List.cons_append, ← this]

theorem writeDecChars_no_nl (d : DecLit) : '\n' ∉ writeDecChars d := by
  intro hm
  unfold writeDecChars at hm
  have hlt := writeNatBE_lt d.mant.natAbs (d.frac + 1)
  simp only at hm
  split at hm
  · rcases List.mem_cons.mp hm with h1 | h2
    · cases h1
    · revert h2
      split
      · intro h2
        obtain ⟨x, hx, hxe⟩ := List.mem_map.mp h2
        exact digitChar_ne_nl (hlt x hx) hxe
      · intro h2
        rcases List.mem_append.mp h2 with h3 | h3
        · obtain ⟨x, hx, hxe⟩ := List.mem_map.mp h3
          exact digitChar_ne_nl (hlt x (List.take_subset _ _ hx)) hxe
        · rcases List.mem_cons.mp h3 with h4 | h4
          · cases h4
          · obtain ⟨x, hx, hxe⟩ := List.mem_map.mp h4
            exact digitChar_ne_nl (hlt x (List.drop_subset _ _ hx)) hxe
  · revert hm
    split
    · intro h2
      obtain ⟨x, hx, hxe⟩ := List.mem_map.mp h2
      exact digitChar_ne_nl (hlt x hx) hxe
    · intro h2
      rcases List.mem_append.mp h2 with h3 | h3
      · obtain ⟨x, hx, hxe⟩ := List.mem_map.mp h3
        exact digitChar_ne_nl (hlt x (List.take_subset _ _ hx)) hxe
      · rcases List.mem_cons.mp h3 with h4 | h4
        · cases h4
        · obtain ⟨x, hx, hxe⟩ := List.mem_map.mp h4
          exact digitChar_ne_nl (hlt x (List.drop_subset _ _ hx)) hxe

theorem writeCalibLine_no_nl {n : Char} (hn : n ≠ '\n') (i : CameraIntrinsics) :
    '\n' ∉ writeCalibLine n i := by
  intro hm
  unfold writeCalibLine camChars at hm
  simp [writeDecChars_no_nl i.f, writeDecChars_no_nl i.cx, writeDecChars_no_nl i.cy,
    Ne.symm hn] at hm

theorem parseCalibration_write (i0 i1 : CameraIntrinsics) :
    parseCalibration (writeCalibration i0 i1) = .ok (i0, i1) := by
  unfold parseCalibration writeCalibration
  rw [splitNl_append_nl (writeCalibLine '1' i1)
    (writeCalibLine_no_nl (by decide) i0)]
  rw [splitNl_no_nl (writeCalibLine_no_nl (by decide) i1)]
  simp only [parseCalibLine_write]

theorem parseCalibration_sound {cs : List Char}
    {p : CameraIntrinsics × CameraIntrinsics}
    (h : parseCalibration cs = .ok p) : CalibGrammar cs := by
  unfold parseCalibration at h
  split at h
  · rename_i l0 l1 hsp
    have hcs := splitNl_eq_two hsp
    split at h
    · rename_i f0 cx0 cy0 f1 cx1 cy1 h0 h1
      exact ⟨l0, l1, parseCalibLine_sound h0, parseCalibLine_sound h1, Or.inl hcs⟩
    · split at h
      · rename_i f1 cx1 cy1 f0 cx0 cy0 h1 h0
        exact ⟨l1, l0, parseCalibLine_sound h0, parseCalibLine_sound h1, Or.inr hcs⟩
      · cases h
  · cases h

theorem parseCalibration_not_ok {cs : List Char}
    (h : ∀ p, parseCalibration cs ≠ .ok p) :
    parseCalibration cs = .error .invalidCalibration := by
  rcases he : parseCalibration cs with e | p
  · unfold parseCalibration at he
    split at he
    · split at he
      · cases he
      · split at he
        · cases he
        · rw [← he]
    · rw [← he]
  · exact absurd he (h p)

theorem calibGrammar_has_nl {cs : List Char} (h : CalibGrammar cs) : '\n' ∈ cs := by
  obtain ⟨l0, l1, _, _, hcs | hcs⟩ := h <;> subst hcs <;> simp

/-- C6: writing a CameraIntrinsics pair into the calibration grammar and
re-parsing yields the identical pair, and every text deviating from the
grammar fails with `InvalidCalibration`. -/
theorem claim_C6_calibration_roundtrip :
    (∀ i0 i1 : CameraIntrinsics,
      parseCalibration (writeCalibration i0 i1) = .ok (i0, i1)) ∧
    (∀ cs : List Char, ¬ CalibGrammar cs →
      parseCalibration cs = .error .invalidCalibration) :=
  ⟨parseCalibration_write,
   fun _ hg => parseCalibration_not_ok
     (fun _ hp => hg (parseCalibration_sound hp))⟩

theorem claim_C6_witness :
    parseCalibration (writeCalibration ⟨⟨2, 0⟩, ⟨3, 0⟩, ⟨4, 0⟩⟩ ⟨⟨5, 0⟩, ⟨6, 0⟩, ⟨7, 0⟩⟩)
      = .ok (⟨⟨2, 0⟩, ⟨3, 0⟩, ⟨4, 0⟩⟩, ⟨⟨5, 0⟩, ⟨6, 0⟩, ⟨7, 0⟩⟩) ∧
    parseCalibration ['x'] = .error .invalidCalibration :=
  ⟨claim_C6_calibration_roundtrip.1 ⟨⟨2, 0⟩, ⟨3, 0⟩, ⟨4, 0⟩⟩ ⟨⟨5, 0⟩, ⟨6, 0⟩, ⟨7, 0⟩⟩,
   claim_C6_calibration_roundtrip.2 ['x']
     (fun hg => by have hm := calibGrammar_has_nl hg; simp at hm)⟩
